import Mathlib

/-!
Verification development for the portail repository: a shallow embedding of
the sanitization / session-orchestration core (sanitizeHTML, context and
metadata extraction, the history state machine, and the agentic planner)
together with theorems settling the specification claims.

Modelling conventions:
* Markup fragments are modelled as parsed trees (`Node` / `NodeList`); the
  browser's permissive `innerHTML` parser and serializer are the abstraction
  boundary of the embedding (the repository never parses markup itself).
  Tag and attribute names are taken in the lower-case form the DOM exposes.
* JavaScript strings are modelled as `List Char`; the handful of escape /
  regex operations used by the source are implemented character by character
  with the semantics of the concrete regexes that appear in the source.
* `JSON.parse` (a host builtin, not repository code) is modelled by a parser
  for the scalar subset exercised here: null, booleans, integer numerals and
  escape-free double-quoted strings; other inputs are rejected, which for the
  repository's callers means the raw-string fallback (nested JSON documents
  and fractional numerals are outside the model).
* Environment-supplied values (backend responses, Math.random, Date.now ids)
  are passed as explicit parameters / oracles.
-/

namespace Portail

/-! ## JavaScript character classes and string primitives -/

/-- Word characters of the JavaScript regex class `\w` (`[A-Za-z0-9_]`). -/
def isWordChar (c : Char) : Bool :=
  (97 ≤ c.toNat && c.toNat ≤ 122) || (65 ≤ c.toNat && c.toNat ≤ 90) ||
    (48 ≤ c.toNat && c.toNat ≤ 57) || c = '_'

/-- White-space characters of JavaScript `String.prototype.trim` and the
regex class `\s` (WhiteSpace plus LineTerminator code points). -/
def jsSpace (c : Char) : Bool :=
  c = ' ' || c = '\t' || c = '\n' || c = '\r' ||
  c.toNat = 0x0B || c.toNat = 0x0C || c.toNat = 0xA0 || c.toNat = 0x1680 ||
  (0x2000 ≤ c.toNat && c.toNat ≤ 0x200A) || c.toNat = 0x2028 || c.toNat = 0x2029 ||
  c.toNat = 0x202F || c.toNat = 0x205F || c.toNat = 0x3000 || c.toNat = 0xFEFF

/-- JavaScript LineTerminator code points (the characters the regex `.` does
not match). -/
def isLineTerm (c : Char) : Bool :=
  c = '\n' || c = '\r' || c.toNat = 0x2028 || c.toNat = 0x2029

/-- ASCII lower-casing of a character list (the source only compares ASCII
keywords case-insensitively). -/
def lowerL (l : List Char) : List Char :=
  l.map Char.toLower

/-- Case-sensitive prefix test: does `s` start with `pat`? -/
def startsWithL : List Char → List Char → Bool
  | [], _ => true
  | _ :: _, [] => false
  | p :: ps, c :: cs => p = c && startsWithL ps cs

/-- Case-insensitive prefix test; `pat` is given in lower case. -/
def startsWithCI : List Char → List Char → Bool
  | [], _ => true
  | _ :: _, [] => false
  | p :: ps, c :: cs => p = c.toLower && startsWithCI ps cs

/-- Substring test, mirroring JavaScript `String.prototype.includes`. -/
def containsSub (pat : List Char) : List Char → Bool
  | [] => startsWithL pat []
  | c :: rest => startsWithL pat (c :: rest) || containsSub pat rest

/-- JavaScript `String.prototype.trim` on a character list. -/
def jsTrimL (l : List Char) : List Char :=
  ((l.dropWhile jsSpace).reverse.dropWhile jsSpace).reverse

/-- All characters are JavaScript white space. -/
def allJsSpace (l : List Char) : Bool :=
  l.all jsSpace

/-- Hexadecimal digit value, as accepted by the class `[\dA-Fa-f]` (code
points compared numerically). -/
def hexDigitVal (c : Char) : Option Nat :=
  if 48 ≤ c.toNat && c.toNat ≤ 57 then some (c.toNat - 48)
  else if 97 ≤ c.toNat && c.toNat ≤ 102 then some (c.toNat - 87)
  else if 65 ≤ c.toNat && c.toNat ≤ 70 then some (c.toNat - 55)
  else none

/-! ## Escape normalization (sanitizeHTML, onclick handling)

The source first rewrites every `\uXXXX` escape, then every `\xXX` escape,
each with `String.fromCharCode(parseInt(hex, 16))`.  Code points in the
surrogate range are not valid Lean `Char`s; `Char.ofNat` maps them to NUL,
which is the embedding's rendering of a lone UTF-16 surrogate. -/

/-- One left-to-right pass replacing `\uXXXX` (four hex digits) escapes,
fuelled by the string length (each step consumes at least one character, and
after a failed candidate the scan resumes right after the backslash, exactly
like the regex engine). -/
def normalizeUF : Nat → List Char → List Char
  | 0, l => l
  | _, [] => []
  | Nat.succ f, '\\' :: 'u' :: h1 :: h2 :: h3 :: h4 :: rest2 =>
    (match hexDigitVal h1, hexDigitVal h2, hexDigitVal h3, hexDigitVal h4 with
     | some a, some b, some c2, some d =>
         Char.ofNat (((a * 16 + b) * 16 + c2) * 16 + d) :: normalizeUF f rest2
     | _, _, _, _ => '\\' :: normalizeUF f ('u' :: h1 :: h2 :: h3 :: h4 :: rest2))
  | Nat.succ f, c :: rest => c :: normalizeUF f rest

/-- One left-to-right pass replacing `\xXX` (two hex digits) escapes. -/
def normalizeXF : Nat → List Char → List Char
  | 0, l => l
  | _, [] => []
  | Nat.succ f, '\\' :: 'x' :: h1 :: h2 :: rest2 =>
    (match hexDigitVal h1, hexDigitVal h2 with
     | some a, some b => Char.ofNat (a * 16 + b) :: normalizeXF f rest2
     | _, _ => '\\' :: normalizeXF f ('x' :: h1 :: h2 :: rest2))
  | Nat.succ f, c :: rest => c :: normalizeXF f rest

/-- The full escape normalization applied to an onclick value: the `\u` pass
followed by the `\x` pass, exactly as the two sequential `replace` calls. -/
def normalizeEscapes (l : List Char) : List Char :=
  normalizeXF (normalizeUF l.length l).length (normalizeUF l.length l)

/-! ## The dangerous-keyword regex

`/(\beval\b|\bFunction\b|javascript:|<script\b|\.constructor|\bprototype\b|__proto__|location\.|document\.|window\.|globalThis\.|cookie|import\s|require\(|\bthis\b|;)/i`
tested against the normalized onclick value.  The scan tries every position,
which is exactly the semantics of `RegExp.prototype.test`. -/

/-- A `\b` boundary holds before the current position given the previous
character (word characters on exactly one side). -/
def boundaryOk : Option Char → Bool
  | none => true
  | some c => !isWordChar c

/-- After skipping `n` characters of `s`, the next character (if any) is not
a word character: the trailing `\b` of a keyword alternative. -/
def afterNotWord (n : Nat) (s : List Char) : Bool :=
  match s.drop n with
  | [] => true
  | c :: _ => !isWordChar c

/-- Does one of the dangerous alternatives match at the current position? -/
def dangerAt (prev : Option Char) (s : List Char) : Bool :=
  (boundaryOk prev && startsWithCI "eval".data s && afterNotWord 4 s) ||
  (boundaryOk prev && startsWithCI "function".data s && afterNotWord 8 s) ||
  startsWithCI "javascript:".data s ||
  (startsWithCI "<script".data s && afterNotWord 7 s) ||
  startsWithCI ".constructor".data s ||
  (boundaryOk prev && startsWithCI "prototype".data s && afterNotWord 9 s) ||
  startsWithCI "__proto__".data s ||
  startsWithCI "location.".data s ||
  startsWithCI "document.".data s ||
  startsWithCI "window.".data s ||
  startsWithCI "globalthis.".data s ||
  startsWithCI "cookie".data s ||
  (startsWithCI "import".data s &&
    (match s.drop 6 with
     | c :: _ => jsSpace c
     | [] => false)) ||
  startsWithCI "require(".data s ||
  (boundaryOk prev && startsWithCI "this".data s && afterNotWord 4 s) ||
  startsWithL ";".data s

/-- Scan every position of the string for a dangerous alternative. -/
def dangerScan : Option Char → List Char → Bool
  | _, [] => false
  | prev, c :: rest => dangerAt prev (c :: rest) || dangerScan (some c) rest

/-- `hasDangerousKeywords` of the source, on the normalized value. -/
def hasDangerousKeywords (l : List Char) : Bool :=
  dangerScan none l

/-! ## The alert-shape regex `/^alert\s*\(.+\)\s*$/`

Applied to the trimmed normalized value; `alert` is matched case-sensitively,
`.` matches everything but line terminators, and with backtracking the match
succeeds iff some closing parenthesis is followed only by white space. -/

/-- Backtracking acceptance of `.+\)\s*$`: `seen` records whether `.+` has
consumed at least one character so far. -/
def alertTail : Bool → List Char → Bool
  | _, [] => false
  | seen, c :: rest =>
    (c = ')' && seen && allJsSpace rest) || (!isLineTerm c && alertTail true rest)

/-- `isValidAlertCall` of the source: the trimmed value matches
`/^alert\s*\(.+\)\s*$/`. -/
def isValidAlertCall (t : List Char) : Bool :=
  startsWithL "alert".data t &&
    (match (t.drop 5).dropWhile jsSpace with
     | c :: tail => c = '(' && alertTail false tail
     | [] => false)

/-! ## The Math allow-list

`usesMath` is `/\bMath\b/i.test(v)`; if it holds, every match of
`/Math\.\w+/gi` must itself pass `/\bMath\.(floor|ceil|round|random|abs|min|max|pow|sqrt|sign)\b/i`. -/

/-- Word-boundary, case-insensitive occurrence test for `\bMath\b`. -/
def mathWordScan : Option Char → List Char → Bool
  | _, [] => false
  | prev, c :: rest =>
    (boundaryOk prev && startsWithCI "math".data (c :: rest) &&
      afterNotWord 4 (c :: rest)) ||
    mathWordScan (some c) rest

/-- The allow-listed Math method names. -/
def safeMathNames : List (List Char) :=
  ["floor".data, "ceil".data, "round".data, "random".data, "abs".data,
   "min".data, "max".data, "pow".data, "sqrt".data, "sign".data]

/-- Does `\bMath\.(floor|...|sign)\b` match at the current position? -/
def safeMathAt (prev : Option Char) (s : List Char) : Bool :=
  boundaryOk prev && startsWithCI "math.".data s &&
    safeMathNames.any
      (fun nm => startsWithCI nm (s.drop 5) && afterNotWord (5 + nm.length) s)

/-- `RegExp.test` of the safe-Math pattern: scan every position. -/
def safeMathScan : Option Char → List Char → Bool
  | _, [] => false
  | prev, c :: rest => safeMathAt prev (c :: rest) || safeMathScan (some c) rest

/-- The non-overlapping global matches of `/Math\.\w+/gi`, fuelled by the
string length (each step consumes at least one character). -/
def mathUsagesF : Nat → List Char → List (List Char)
  | 0, _ => []
  | _, [] => []
  | Nat.succ fuel, c :: rest =>
    if startsWithCI "math.".data (c :: rest) then
      match ((c :: rest).drop 5).takeWhile isWordChar with
      | [] => mathUsagesF fuel rest
      | run => ((c :: rest).take 5 ++ run) :: mathUsagesF fuel ((c :: rest).drop (5 + run.length))
    else mathUsagesF fuel rest

/-- `usesSafeMathOnly` of the source: if `Math` occurs as a word, every
`Math.\w+` usage must match the allow-list pattern. -/
def usesSafeMathOnly (l : List Char) : Bool :=
  if mathWordScan none l then
    (mathUsagesF (l.length + 1) l).all (fun u => safeMathScan none u)
  else true

/-! ## Alert message extraction (matching-parenthesis scan) -/

/-- Scan for the parenthesis matching an already-consumed `(` at depth `d`,
accumulating the characters in between (reversed). -/
def scanParen : Nat → List Char → List Char → Option (List Char)
  | _, _, [] => none
  | d, acc, c :: rest =>
    if c = ')' then
      if d = 1 then some acc.reverse else scanParen (d - 1) (c :: acc) rest
    else if c = '(' then scanParen (d + 1) (c :: acc) rest
    else scanParen d (c :: acc) rest

/-- The extracted alert message: the trimmed text between the first `(` and
its matching `)`, or `none` when either parenthesis is missing. -/
def extractAlertMessage (nv : List Char) : Option (List Char) :=
  match nv.dropWhile (fun c => !(c = '(')) with
  | [] => none
  | _ :: tail => (scanParen 1 [] tail).map jsTrimL

/-- The complete onclick→directive decision of `sanitizeHTML`: normalize the
escapes, require the alert shape, no dangerous keyword and only safe Math
usages, then extract the message between the first parenthesis and its
matching close.  `some msg` means the two directive attributes are emitted
with `data-alert-message = msg`. -/
def alertDirective (v : String) : Option String :=
  let nv := normalizeEscapes v.data
  if isValidAlertCall (jsTrimL nv) && !hasDangerousKeywords nv && usesSafeMathOnly nv then
    (extractAlertMessage nv).map String.mk
  else none

/-- Like `scanParen`, but also returning the remainder after the matching
close (used only by the claim-side grammar below). -/
def scanParenRest : Nat → List Char → List Char → Option (List Char × List Char)
  | _, _, [] => none
  | d, acc, c :: rest =>
    if c = ')' then
      if d = 1 then some (acc.reverse, rest) else scanParenRest (d - 1) (c :: acc) rest
    else if c = '(' then scanParenRest (d + 1) (c :: acc) rest
    else scanParenRest d (c :: acc) rest

/-- Claim-side formalisation (C2) of "the handler text is a single
`alert(...)` call": after trimming, the text is exactly `alert`, optional
white space, an opening parenthesis, a non-empty argument with balanced
parentheses, the matching close, and nothing but white space after it.  This
follows the claim's words, not the source, and is compared against the
sanitizer's actual behaviour. -/
def specSingleAlertCall (nv : List Char) : Bool :=
  let t := jsTrimL nv
  startsWithL "alert".data t &&
    (match (t.drop 5).dropWhile jsSpace with
     | c :: tail =>
         c = '(' &&
           (match scanParenRest 1 [] tail with
            | some (arg, rest) => !arg.isEmpty && allJsSpace rest
            | none => false)
     | [] => false)

/-! ## DOM attribute maps

An element's attributes are an ordered association list, as the DOM exposes
them.  `setAttr` updates an existing attribute in place or appends a new one;
`removeAttr` deletes it; `getAttr` reads it — the semantics of
`setAttribute` / `removeAttribute` / `getAttribute`. -/

/-- Ordered attribute list of an element. -/
abbrev AttrList := List (String × String)

/-- `getAttribute`: the value of the first binding of `a`, if any. -/
def getAttr : AttrList → String → Option String
  | [], _ => none
  | (k, v) :: rest, a => if k = a then some v else getAttr rest a

/-- `setAttribute`: update the first binding of `a` in place, else append. -/
def setAttr : AttrList → String → String → AttrList
  | [], a, b => [(a, b)]
  | (k, v) :: rest, a, b =>
    if k = a then (a, b) :: rest else (k, v) :: setAttr rest a b

/-- `removeAttribute`: drop every binding of `a`. -/
def removeAttr : AttrList → String → AttrList
  | [], _ => []
  | (k, v) :: rest, a =>
    if k = a then removeAttr rest a else (k, v) :: removeAttr rest a

/-- `hasAttribute`. -/
def hasAttrB (l : AttrList) (a : String) : Bool :=
  (getAttr l a).isSome

/-! ## The per-element attribute passes of sanitizeHTML -/

/-- The event-handler pass: iterate over a snapshot of the attributes; every
attribute whose name starts with `on` is removed, except that `onclick` on a
`button` is first examined by `alertDirective` and, on success, replaced by
the two inert directive attributes. -/
def onPass (tag : String) : List (String × String) → AttrList → AttrList
  | [], attrs => attrs
  | (nm, value) :: snap, attrs =>
    if startsWithL "on".data nm.data = true then
      if nm = "onclick" ∧ tag = "button" then
        onPass tag snap
          (removeAttr
            (match alertDirective value with
             | some msg =>
                 setAttr (setAttr attrs "data-action-type" "alert") "data-alert-message" msg
             | none => attrs) nm)
      else onPass tag snap (removeAttr attrs nm)
    else onPass tag snap attrs

/-- The form-hijacking pass: remove `formaction`, `form`, `formmethod` and
`formtarget` (checking `hasAttribute` first is equivalent to unconditional
removal). -/
def dangerousAttrsPass (attrs : AttrList) : AttrList :=
  removeAttr (removeAttr (removeAttr (removeAttr attrs "formaction") "form") "formmethod") "formtarget"

/-- Does a URI value resolve, after trimming and lower-casing, to one of the
blocked schemes?  (A missing value is read as the empty string, like the
`href ? ... : ''` guard.) -/
def badScheme (v : String) : Bool :=
  let l := lowerL (jsTrimL v.data)
  startsWithL "javascript:".data l || startsWithL "data:".data l ||
    startsWithL "vbscript:".data l

/-- The URI pass: a blocked `href` is neutralized to `#`, a blocked `src` is
removed outright. -/
def uriPass (attrs : AttrList) : AttrList :=
  let a1 :=
    match getAttr attrs "href" with
    | some v => if badScheme v then setAttr attrs "href" "#" else attrs
    | none => attrs
  match getAttr a1 "src" with
  | some v => if badScheme v then removeAttr a1 "src" else a1
  | none => a1

/-- The complete per-element attribute rewriting of `sanitizeHTML`, in source
order: event handlers, form-hijacking attributes, then URI schemes. -/
def sanitizeAttrs (tag : String) (attrs : AttrList) : AttrList :=
  uriPass (dangerousAttrsPass (onPass tag attrs attrs))

/-! ## Markup fragments

`Node`/`NodeList` is the parsed tree handed to the sanitizer by the
browser's permissive parser; tag and attribute names are in DOM (lower-case)
form.  `sanitizeNodeList` removes every `script` element and rewrites every
remaining element's attributes — script removal commutes with the per-element
attribute pass, so the single traversal is the two `querySelectorAll` loops
of the source. -/

mutual
inductive Node where
  | text : String → Node
  | elem : String → AttrList → NodeList → Node
inductive NodeList where
  | nil : NodeList
  | cons : Node → NodeList → NodeList
end

/-- Convert a Lean list of nodes into a `NodeList` (notation helper). -/
def toNodeList : List Node → NodeList
  | [] => NodeList.nil
  | n :: rest => NodeList.cons n (toNodeList rest)

/-- `sanitizeHTML` on a parsed fragment: drop `script` elements, rewrite
every other element's attributes, recurse into children. -/
def sanitizeNodeList : NodeList → NodeList
  | NodeList.nil => NodeList.nil
  | NodeList.cons (Node.text s) rest =>
      NodeList.cons (Node.text s) (sanitizeNodeList rest)
  | NodeList.cons (Node.elem tag attrs children) rest =>
      if tag = "script" then sanitizeNodeList rest
      else
        NodeList.cons (Node.elem tag (sanitizeAttrs tag attrs) (sanitizeNodeList children))
          (sanitizeNodeList rest)

/-! ## Decidable output invariants of the sanitizer -/

/-- No attribute name starts with `on`. -/
def attrsNoOn (attrs : AttrList) : Bool :=
  attrs.all (fun p => !startsWithL "on".data p.1.data)

/-- The element's `href`/`src`, when present, carry no blocked scheme. -/
def attrsUriSafe (attrs : AttrList) : Bool :=
  (match getAttr attrs "href" with
   | some v => !badScheme v
   | none => true) &&
  (match getAttr attrs "src" with
   | some v => !badScheme v
   | none => true)

/-- Fragment-wide C1 safety: no `script` element and no event-handler
attribute anywhere in the tree. -/
def fragNoScriptNoOn : NodeList → Bool
  | NodeList.nil => true
  | NodeList.cons (Node.text _) rest => fragNoScriptNoOn rest
  | NodeList.cons (Node.elem tag attrs children) rest =>
      !(tag = "script") && attrsNoOn attrs && fragNoScriptNoOn children &&
        fragNoScriptNoOn rest

/-- Fragment-wide C3 safety: no blocked URI scheme in any element's
`href`/`src`. -/
def fragUriSafe : NodeList → Bool
  | NodeList.nil => true
  | NodeList.cons (Node.text _) rest => fragUriSafe rest
  | NodeList.cons (Node.elem _ attrs children) rest =>
      attrsUriSafe attrs && fragUriSafe children && fragUriSafe rest

/-! ## DOM queries used by the context extractor -/

/-- `textContent`: concatenation of every descendant text node, in order. -/
def textContentL : NodeList → List Char
  | NodeList.nil => []
  | NodeList.cons (Node.text s) rest => s.data ++ textContentL rest
  | NodeList.cons (Node.elem _ _ children) rest =>
      textContentL children ++ textContentL rest

/-- `querySelector`: the first element (in document pre-order) whose tag and
attributes satisfy `q`; yields the tag, attributes and children. -/
def findElem (q : String → AttrList → Bool) : NodeList → Option (String × AttrList × NodeList)
  | NodeList.nil => none
  | NodeList.cons (Node.text _) rest => findElem q rest
  | NodeList.cons (Node.elem tag attrs children) rest =>
      if q tag attrs then some (tag, attrs, children)
      else
        match findElem q children with
        | some r => some r
        | none => findElem q rest

/-- `querySelectorAll(tag)`: the children lists of every element with that
tag, in document pre-order. -/
def elemsOfTag (tg : String) : NodeList → List NodeList
  | NodeList.nil => []
  | NodeList.cons (Node.text _) rest => elemsOfTag tg rest
  | NodeList.cons (Node.elem tag _ children) rest =>
      (if tag = tg then [children] else []) ++ elemsOfTag tg children ++ elemsOfTag tg rest

/-! ## extractContextFromHTML -/

/-- `MAX_CONTEXT_LENGTH` of the source. -/
def MAX_CONTEXT_LENGTH : Nat := 100

/-- `MIN_MEANINGFUL_TEXT_LENGTH` of the source. -/
def MIN_MEANINGFUL_TEXT_LENGTH : Nat := 10

/-- One heading probe: the first element with this tag, if its trimmed text
is non-empty (otherwise the extractor moves on to the next heading level). -/
def headingHit (frag : NodeList) (tg : String) : Option String :=
  match findElem (fun t _ => t = tg) frag with
  | some (_, _, children) =>
      match jsTrimL (textContentL children) with
      | [] => none
      | t => some (String.mk (t.take MAX_CONTEXT_LENGTH))
  | none => none

/-- The `[data-title], [title]` probe: on the first element carrying either
attribute, `data-title || title` (JavaScript falsy fallback), kept only when
its trim is non-empty. -/
def titleHit (frag : NodeList) : Option String :=
  match findElem (fun _ a => hasAttrB a "data-title" || hasAttrB a "title") frag with
  | none => none
  | some (_, attrs, _) =>
      let chosen :=
        match getAttr attrs "data-title" with
        | some dv => if dv = "" then getAttr attrs "title" else some dv
        | none => getAttr attrs "title"
      match chosen with
      | some tv =>
          match jsTrimL tv.data with
          | [] => none
          | t => some (String.mk (t.take MAX_CONTEXT_LENGTH))
      | none => none

/-- The paragraph probe: the first `p` whose trimmed text exceeds the
meaningful-length threshold. -/
def paraHit : List NodeList → Option String
  | [] => none
  | children :: rest =>
      match jsTrimL (textContentL children) with
      | [] => paraHit rest
      | t =>
          if MIN_MEANINGFUL_TEXT_LENGTH < t.length then some (String.mk (t.take MAX_CONTEXT_LENGTH))
          else paraHit rest

/-- The visible-text probe: the trimmed first line of the whole trimmed
`textContent`. -/
def allTextHit (frag : NodeList) : Option String :=
  match jsTrimL (textContentL frag) with
  | [] => none
  | t =>
      match jsTrimL (t.takeWhile (fun c => !(c = '\n'))) with
      | [] => none
      | fl => some (String.mk (fl.take MAX_CONTEXT_LENGTH))

/-- The first probe that fires. -/
def firstSome : List (Option String) → Option String
  | [] => none
  | some s :: _ => some s
  | none :: rest => firstSome rest

/-- `extractContextFromHTML`: headings `h1`..`h6` in level order, then the
title attributes, then a meaningful paragraph, then any visible text, then
the fixed fallback. -/
def extractContextFromHTML (frag : NodeList) : String :=
  match firstSome
      [headingHit frag "h1", headingHit frag "h2", headingHit frag "h3",
       headingHit frag "h4", headingHit frag "h5", headingHit frag "h6",
       titleHit frag, paraHit (elemsOfTag "p" frag), allTextHit frag] with
  | some s => s
  | none => "Initial Experience"

/-! ## JSON values and the modelled `JSON.parse` subset -/

/-- JSON-like values carried in metadata records. -/
inductive JVal where
  | jnull : JVal
  | jbool : Bool → JVal
  | jnum : Int → JVal
  | jstr : String → JVal
  | jobj : List (String × JVal) → JVal

/-- An ordered metadata record (a JavaScript object's own properties). -/
abbrev MRec := List (String × JVal)

/-- Property read. -/
def lookupJ : MRec → String → Option JVal
  | [], _ => none
  | (k, v) :: rest, a => if k = a then some v else lookupJ rest a

/-- Property write: update the first binding in place or append (JavaScript
assignment preserves insertion order). -/
def setJ : MRec → String → JVal → MRec
  | [], a, b => [(a, b)]
  | (k, v) :: rest, a, b =>
    if k = a then (a, b) :: rest else (k, v) :: setJ rest a b

/-- Spread-merge `\x7b...base, ...extra\x7d`: every property of `extra`
overwrites the same-named property of `base`. -/
def mergeJ : MRec → MRec → MRec
  | base, [] => base
  | base, (k, v) :: rest => mergeJ (setJ base k v) rest

/-- Digits of a decimal numeral. -/
def digitsVal : List Char → Option Nat
  | [] => none
  | [c] => if 48 ≤ c.toNat && c.toNat ≤ 57 then some (c.toNat - 48) else none
  | c :: rest =>
    if 48 ≤ c.toNat && c.toNat ≤ 57 then
      match digitsVal rest with
      | some n => some ((c.toNat - 48) * 10 ^ rest.length + n)
      | none => none
    else none

/-- An integer JSON numeral (optional minus, no leading zero). -/
def parseIntLit (t : List Char) : Option Int :=
  match t with
  | '-' :: ds =>
      if ds.length > 1 && ds.headD 'x' = '0' then none
      else (digitsVal ds).map (fun n => -(n : Int))
  | ds =>
      if ds.length > 1 && ds.headD 'x' = '0' then none
      else (digitsVal ds).map (fun n => (n : Int))

/-- Modelled `JSON.parse` (see the module header): scalar subset — `null`,
booleans, integer numerals and escape-free quoted strings; everything else
is a parse failure, which for the repository's callers means the raw-string
fallback. -/
def parseJsonLite (s : String) : Option JVal :=
  match jsTrimL s.data with
  | [] => none
  | t =>
    if t = "null".data then some JVal.jnull
    else if t = "true".data then some (JVal.jbool true)
    else if t = "false".data then some (JVal.jbool false)
    else
      match t with
      | '"' :: rest =>
          (match rest.getLast? with
           | some last =>
               if last = '"' &&
                   rest.dropLast.all (fun c => !(c = '"') && !(c = '\\')) then
                 some (JVal.jstr (String.mk rest.dropLast))
               else none
           | none => none)
      | _ => (parseIntLit t).map JVal.jnum

/-- Parse a data attribute's value as JSON, falling back to the raw string. -/
def parseOrString (v : String) : JVal :=
  match parseJsonLite v with
  | some j => j
  | none => JVal.jstr v

/-! ## Metadata collection and extraction -/

/-- `(metadata.interactionCount || 0) + 1`.  Absent and falsy values count
as zero; non-numeric truthy parents would undergo JavaScript string/number
coercion, which is outside the model (theorems restrict parents to
numeric-or-absent counters). -/
def interactionCountSucc : Option JVal → JVal
  | some (JVal.jnum n) => JVal.jnum (n + 1)
  | _ => JVal.jnum 1

/-- Fold the element's `data-*` attributes (other than the two reserved
directive attributes) into the record, parsing each value as JSON with a
raw-string fallback; the key is the name with the leading `data-` removed. -/
def collectAttrsMeta : List (String × String) → MRec → MRec
  | [], m => m
  | (k, v) :: rest, m =>
    if startsWithL "data-".data k.data && !(k = "data-action-type") &&
        !(k = "data-alert-message") then
      collectAttrsMeta rest (setJ m (String.mk (k.data.drop 5)) (parseOrString v))
    else collectAttrsMeta rest m

/-- `collectInteractionMetadata`: copy the parent record, record the
activated element's lower-cased tag under `lastInteractionType`, merge the
element's `data-*` attributes, then bump `interactionCount`. -/
def collectInteractionMetadata (tag : String) (attrs : AttrList) (parent : MRec) : MRec :=
  let m1 := setJ parent "lastInteractionType" (JVal.jstr (String.mk (lowerL tag.data)))
  let m2 := collectAttrsMeta attrs m1
  setJ m2 "interactionCount" (interactionCountSucc (lookupJ m2 "interactionCount"))

/-- `extractMetadataFromHTML`: parse the first `data-metadata` attribute as
JSON; a missing attribute, a parse failure (logged, never raised) or a
non-object document all leave the callers with an empty record. -/
def extractMetadataFromHTML (frag : NodeList) : MRec :=
  match findElem (fun _ a => hasAttrB a "data-metadata") frag with
  | some (_, attrs, _) =>
      match getAttr attrs "data-metadata" with
      | some v =>
          match parseJsonLite v with
          | some (JVal.jobj o) => o
          | _ => []
      | none => []
  | none => []

/-! ## The history / session state machine

The log and cursor of `state.history` / `state.currentHistoryIndex`.  Entry
enrichment (the process-generated id, the timestamp, the attached agentic
step list) is environment data carried inside the entry value itself; the
platform navigation stack holds only the cursor index and is driven by the
same functions. -/

/-- The history log and session cursor (`-1` before the first entry). -/
structure HistState (α : Type) where
  history : List α
  current : Int

/-- `Array.prototype.slice(0, k)` with JavaScript clamping. -/
def jsSliceTo {α : Type} (l : List α) (k : Int) : List α :=
  l.take (max k 0).toNat

/-- `addToHistory`: when the cursor is not at the last index, first discard
every entry after it; then append the new entry and move the cursor to the
new last index. -/
def addToHistory {α : Type} (s : HistState α) (e : α) : HistState α :=
  let h :=
    if s.current < (s.history.length : Int) - 1 then jsSliceTo s.history (s.current + 1)
    else s.history
  let h2 := h ++ [e]
  { history := h2, current := (h2.length : Int) - 1 }

/-- `navigateToHistoryIndex`: an index outside `[0, length)` is ignored;
otherwise the cursor moves and the stored entry is re-displayed. -/
def navigateToHistoryIndex {α : Type} (s : HistState α) (i : Int) : HistState α :=
  if i < 0 ∨ (s.history.length : Int) ≤ i then s
  else { history := s.history, current := i }

/-- The operations that touch the history state. -/
inductive HistOp (α : Type) where
  | commit : α → HistOp α
  | nav : Int → HistOp α

/-- Apply one operation. -/
def applyHistOp {α : Type} (s : HistState α) : HistOp α → HistState α
  | HistOp.commit e => addToHistory s e
  | HistOp.nav i => navigateToHistoryIndex s i

/-- Run a sequence of operations. -/
def runHistOps {α : Type} (s : HistState α) : List (HistOp α) → HistState α
  | [] => s
  | op :: rest => runHistOps (applyHistOp s op) rest

/-- The state before the first entry. -/
def initialHist (α : Type) : HistState α :=
  { history := [], current := -1 }

/-- The session-cursor invariant: `-1` on the empty log, otherwise a valid
index. -/
def histInv {α : Type} (s : HistState α) : Prop :=
  (s.history = [] → s.current = -1) ∧
  (s.history ≠ [] → 0 ≤ s.current ∧ s.current < (s.history.length : Int))

/-! ## The agentic planner -/

/-- `CONFIG.MAX_AGENTIC_STEPS`. -/
def MAX_AGENTIC_STEPS : Nat := 3

/-- `CONFIG.ENABLE_AGENTIC_LOOP`. -/
def ENABLE_AGENTIC_LOOP : Bool := true

/-- `CONFIG.MAX_PROMPT_LENGTH`. -/
def MAX_PROMPT_LENGTH : Nat := 500

/-- The fixed keyword set of `planExperience`. -/
def complexKeywords : List String :=
  ["game", "rpg", "adventure", "simulation", "management", "builder",
   "puzzle", "quiz", "battle", "strategy", "inventory", "tabletop",
   "card", "deck", "board", "escape", "point-and-click", "turn-based",
   "form", "application", "system", "interface", "dashboard",
   "terminal", "command", "database", "archive", "ticket",
   "calendar", "scheduling", "analytics", "inbox", "messaging",
   "social", "feed", "profile", "marketplace", "shop", "store",
   "blog", "news", "article", "broadcast", "journal", "museum",
   "gallery", "exhibition", "portfolio", "timeline", "documentary",
   "tutorial", "lesson", "guide", "manual", "documentation",
   "recipe", "cookbook", "travel", "brochure",
   "interactive", "choose", "visual", "novel", "comic", "graphic",
   "exploration", "map", "location", "browser",
   "validation", "creation", "character", "retro", "vintage", "os"]

/-- `split(/\s+/)` in JavaScript: maximal white-space runs separate the
tokens; leading or trailing runs contribute empty tokens. -/
def splitWsGo : List Char → Bool → List Char → List (List Char)
  | cur, _, [] => [cur.reverse]
  | cur, prevSp, c :: rest =>
    if jsSpace c then
      if prevSp then splitWsGo cur true rest
      else cur.reverse :: splitWsGo [] true rest
    else splitWsGo (c :: cur) false rest

/-- The tokens of `experienceType.toLowerCase().split(/\s+/)`. -/
def typeWords (expType : String) : List (List Char) :=
  splitWsGo [] false (lowerL expType.data)

/-- Does any token contain (as a substring) any of the complex keywords? -/
def isComplexType (expType : String) : Bool :=
  (typeWords expType).any (fun w => complexKeywords.any (fun kw => containsSub kw.data w))

/-- The planner's result record. -/
structure PlanResult where
  needsMultipleSteps : Bool
  totalSteps : Nat
  complexity : String
  strategy : String

/-- `planExperience`.  The theme is received but never read; `enabled` is
`state.agenticLoop.enabled` (defaulting to `ENABLE_AGENTIC_LOOP`), and
`randBit` is the environment's `Math.floor(Math.random() * 2)` (reduced mod
2, the range `Math.random` guarantees). -/
def planExperience (enabled : Bool) (_theme : String) (expType : String) (randBit : Nat) :
    PlanResult :=
  let isComplex := isComplexType expType
  let steps := if isComplex && enabled then min MAX_AGENTIC_STEPS (2 + randBit % 2) else 1
  { needsMultipleSteps := decide (1 < steps)
    totalSteps := steps
    complexity := if isComplex then "high" else "low"
    strategy :=
      if isComplex then
        "Multi-step approach: planning, building core functionality, adding interactivity"
      else "Single-step generation" }

/-! ## The generation orchestrator

Backend calls are oracles: `Except`-valued results of the provider's
asynchronous calls, already parsed into fragment trees at the embedding's
parser boundary.  The rendering surface (`elements.generatedContent`) is the
`Display` component of the application state. -/

/-- What the content surface currently shows. -/
inductive Display where
  | blank : Display
  | statusPanel : Display
  | errorPanel : String → Display
  | reloadPanel : String → Display
  | contentView : NodeList → Display

/-- A committed history entry (id and timestamp are environment-supplied and
held outside the model). -/
structure Experience where
  html : NodeList
  contextId : String
  metadata : MRec

/-- The session state the claims are about. -/
structure AppState where
  hist : HistState Experience
  display : Display

/-- Run the agentic steps `1..total` in order: each raw backend result is
sanitized immediately; the first failure aborts.  Returns the last step's
sanitized fragment (callers always request at least one step). -/
def runGenStepsLast (oracle : Nat → Except String NodeList) :
    Nat → Nat → NodeList → Except String NodeList
  | 0, _, last => Except.ok last
  | Nat.succ k, i, _ =>
    match oracle i with
    | Except.error m => Except.error m
    | Except.ok f => runGenStepsLast oracle k (i + 1) (sanitizeNodeList f)

/-- `generateExperience`: theme and experience type come from the provider,
the plan fixes the step count, the steps run sequentially, and only a fully
successful run commits a history entry; any thrown error instead renders the
inline generation-failure panel, leaving the history untouched. -/
def generateExperienceModel (st : AppState) (themeR expTypeR : Except String String)
    (randBit : Nat) (oracle : Nat → Except String NodeList) : AppState :=
  match themeR with
  | Except.error m => { st with display := Display.errorPanel m }
  | Except.ok theme =>
    match expTypeR with
    | Except.error m => { st with display := Display.errorPanel m }
    | Except.ok expType =>
      let plan := planExperience ENABLE_AGENTIC_LOOP theme expType randBit
      match runGenStepsLast oracle plan.totalSteps 1 NodeList.nil with
      | Except.error m => { st with display := Display.errorPanel m }
      | Except.ok finalHtml =>
          let contextId := extractContextFromHTML finalHtml
          let metadata := extractMetadataFromHTML finalHtml
          let enhanced :=
            setJ (setJ (setJ metadata "theme" (JVal.jstr theme))
                "experienceType" (JVal.jstr expType))
              "agenticLoop"
              (JVal.jobj
                [("totalSteps", JVal.jnum plan.totalSteps),
                 ("complexity", JVal.jstr plan.complexity)])
          let entry : Experience :=
            { html := finalHtml, contextId := contextId, metadata := enhanced }
          { hist := addToHistory st.hist entry, display := Display.contentView finalHtml }

/-- `sanitizePromptText`: slice to the prompt-length cap, strip angle
brackets and braces, trim; empty input or an empty result becomes
`"unknown"`. -/
def sanitizePromptText (t : String) : String :=
  if t = "" then "unknown"
  else
    match jsTrimL ((t.data.take MAX_PROMPT_LENGTH).filter
        (fun c => !(c = '<' || c = '>' || c.toNat = 123 || c.toNat = 125))) with
    | [] => "unknown"
    | l => String.mk l

/-- Was the entry being responded to produced as a complex experience?
(`parentMetadata.agenticLoop && parentMetadata.agenticLoop.complexity ===
'high'`.) -/
def wasComplexExperience (parent : MRec) : Bool :=
  match lookupJ parent "agenticLoop" with
  | some (JVal.jobj o) =>
      match lookupJ o "complexity" with
      | some (JVal.jstr s) => s = "high"
      | _ => false
  | _ => false

/-- The generation phase of `handleInteraction`: when the entry being
answered carried high complexity (and the agentic loop is enabled), run the
capped multi-step sequence (each step sanitized in the loop); otherwise a
single raw generation call. -/
def interactionGenResult (parentMetadata : MRec) (oracle : Nat → Except String NodeList) :
    Except String NodeList :=
  if wasComplexExperience parentMetadata && ENABLE_AGENTIC_LOOP then
    runGenStepsLast oracle (min 2 (MAX_AGENTIC_STEPS - 1)) 1 NodeList.nil
  else oracle 1

/-- `handleInteraction`: build the context chain and interaction metadata,
choose the (capped) step count from the carried complexity, generate, then
sanitize, merge the extracted metadata and commit; any thrown error renders
the navigation-failure panel with its reload affordance, leaving the history
untouched. -/
def handleInteractionModel (st : AppState) (tag : String) (attrs : AttrList)
    (textC : String) (parentContextId : String) (parentMetadata : MRec)
    (oracle : Nat → Except String NodeList) : AppState :=
  let elementText := sanitizePromptText textC
  let newContextId :=
    if parentContextId = "" then elementText
    else parentContextId ++ " -> " ++ elementText
  let newMetadata := collectInteractionMetadata tag attrs parentMetadata
  match interactionGenResult parentMetadata oracle with
  | Except.error m => { st with display := Display.reloadPanel m }
  | Except.ok generated =>
      let sanitized := sanitizeNodeList generated
      let extracted := extractMetadataFromHTML sanitized
      let finalMetadata := mergeJ newMetadata extracted
      let entry : Experience :=
        { html := sanitized, contextId := newContextId, metadata := finalMetadata }
      { hist := addToHistory st.hist entry, display := Display.contentView sanitized }

/-- `displayExperience` re-sanitizes the stored markup before mounting it. -/
def displayExperience (e : Experience) : Display :=
  Display.contentView (sanitizeNodeList e.html)

/-! ## Lemmas: attribute map operations -/

theorem getAttr_mem {l : AttrList} {k v : String} (h : getAttr l k = some v) :
    (k, v) ∈ l := by
  induction l with
  | nil => simp [getAttr] at h
  | cons p rest ih =>
      obtain ⟨k1, v1⟩ := p
      by_cases hk : k1 = k
      · subst hk
        simp [getAttr] at h
        subst h
        exact List.mem_cons_self _ _
      · simp only [getAttr, if_neg hk] at h
        exact List.mem_cons_of_mem _ (ih h)

theorem getAttr_setAttr_self (l : AttrList) (a b : String) :
    getAttr (setAttr l a b) a = some b := by
  induction l with
  | nil => simp [setAttr, getAttr]
  | cons p rest ih =>
      obtain ⟨k1, v1⟩ := p
      by_cases hk : k1 = a
      · simp [setAttr, hk, getAttr]
      · simp [setAttr, hk, getAttr, ih]

theorem getAttr_setAttr_ne (l : AttrList) (a b k : String) (h : k ≠ a) :
    getAttr (setAttr l a b) k = getAttr l k := by
  induction l with
  | nil =>
      simp only [setAttr, getAttr]
      rw [if_neg (fun hh => h hh.symm)]
  | cons p rest ih =>
      obtain ⟨k1, v1⟩ := p
      by_cases hk : k1 = a
      · subst hk
        have hne : ¬ k1 = k := fun hh => h hh.symm
        simp [setAttr, getAttr, hne]
      · by_cases hk2 : k1 = k
        · subst hk2
          simp [setAttr, hk, getAttr]
        · simp [setAttr, hk, getAttr, hk2, ih]

theorem getAttr_removeAttr_self (l : AttrList) (a : String) :
    getAttr (removeAttr l a) a = none := by
  induction l with
  | nil => simp [removeAttr, getAttr]
  | cons p rest ih =>
      obtain ⟨k1, v1⟩ := p
      by_cases hk : k1 = a
      · simp [removeAttr, hk, ih]
      · simp [removeAttr, hk, getAttr, ih]

theorem getAttr_removeAttr_ne (l : AttrList) (a k : String) (h : k ≠ a) :
    getAttr (removeAttr l a) k = getAttr l k := by
  induction l with
  | nil => simp [removeAttr]
  | cons p rest ih =>
      obtain ⟨k1, v1⟩ := p
      by_cases hk : k1 = a
      · subst hk
        have hne : ¬ k1 = k := fun hh => h hh.symm
        simp [removeAttr, getAttr, hne, ih]
      · by_cases hk2 : k1 = k
        · subst hk2
          simp [removeAttr, hk, getAttr]
        · simp [removeAttr, hk, getAttr, hk2, ih]

theorem mem_setAttr {l : AttrList} {a b : String} {p : String × String}
    (h : p ∈ setAttr l a b) : p ∈ l ∨ (p.1 = a ∧ p.2 = b) := by
  induction l with
  | nil =>
      simp [setAttr] at h
      right
      simp [h]
  | cons q rest ih =>
      obtain ⟨k1, v1⟩ := q
      by_cases hk : k1 = a
      · simp only [setAttr, if_pos hk] at h
        rcases List.mem_cons.mp h with h1 | h1
        · right; simp [h1]
        · left; exact List.mem_cons_of_mem _ h1
      · simp only [setAttr, if_neg hk] at h
        rcases List.mem_cons.mp h with h1 | h1
        · left; simp [h1]
        · rcases ih h1 with h2 | h2
          · left; exact List.mem_cons_of_mem _ h2
          · right; exact h2

theorem mem_removeAttr {l : AttrList} {a : String} {p : String × String}
    (h : p ∈ removeAttr l a) : p ∈ l ∧ p.1 ≠ a := by
  induction l with
  | nil => simp [removeAttr] at h
  | cons q rest ih =>
      obtain ⟨k1, v1⟩ := q
      by_cases hk : k1 = a
      · simp only [removeAttr, if_pos hk] at h
        exact ⟨List.mem_cons_of_mem _ (ih h).1, (ih h).2⟩
      · simp only [removeAttr, if_neg hk] at h
        rcases List.mem_cons.mp h with h1 | h1
        · subst h1
          exact ⟨List.mem_cons_self _ _, hk⟩
        · exact ⟨List.mem_cons_of_mem _ (ih h1).1, (ih h1).2⟩

theorem removeAttr_of_getAttr_none {l : AttrList} {a : String}
    (h : getAttr l a = none) : removeAttr l a = l := by
  induction l with
  | nil => simp [removeAttr]
  | cons q rest ih =>
      obtain ⟨k1, v1⟩ := q
      by_cases hk : k1 = a
      · simp [getAttr, hk] at h
      · simp only [getAttr, if_neg hk] at h
        simp [removeAttr, hk, ih h]

theorem key_mem_setAttr {l : AttrList} {a b k v : String}
    (h : (k, v) ∈ setAttr l a b) : (∃ w, (k, w) ∈ l) ∨ k = a := by
  rcases mem_setAttr h with h1 | h1
  · exact Or.inl ⟨v, h1⟩
  · exact Or.inr h1.1

/-! ## Lemmas: the event-handler pass -/

theorem getAttr_onPass (tag : String) (snap : List (String × String)) (attrs : AttrList)
    (k : String) (hon : startsWithL "on".data k.data = false)
    (h1 : k ≠ "data-action-type") (h2 : k ≠ "data-alert-message") :
    getAttr (onPass tag snap attrs) k = getAttr attrs k := by
  induction snap generalizing attrs with
  | nil => rfl
  | cons q snap ih =>
      obtain ⟨nm, value⟩ := q
      have hnm : ∀ _ : startsWithL "on".data nm.data = true, k ≠ nm := by
        intro hs hh
        rw [hh, hs] at hon
        exact Bool.noConfusion hon
      cases hs : startsWithL "on".data nm.data with
      | false =>
          simp only [onPass, hs]
          rw [if_neg Bool.false_ne_true]
          exact ih attrs
      | true =>
          simp only [onPass, hs]
          rw [if_pos trivial]
          by_cases hb : nm = "onclick" ∧ tag = "button"
          · rw [if_pos hb]
            cases halert : alertDirective value with
            | none =>
                simp only [halert]
                rw [ih, getAttr_removeAttr_ne _ _ _ (hnm hs)]
            | some msg =>
                simp only [halert]
                rw [ih, getAttr_removeAttr_ne _ _ _ (hnm hs),
                  getAttr_setAttr_ne _ _ _ _ h2, getAttr_setAttr_ne _ _ _ _ h1]
          · rw [if_neg hb]
            rw [ih, getAttr_removeAttr_ne _ _ _ (hnm hs)]

theorem key_mem_onPass {tag : String} {snap : List (String × String)} {attrs : AttrList}
    {k v : String} (h : (k, v) ∈ onPass tag snap attrs) :
    (∃ w, (k, w) ∈ attrs) ∨ k = "data-action-type" ∨ k = "data-alert-message" := by
  induction snap generalizing attrs k v with
  | nil => exact Or.inl ⟨v, h⟩
  | cons q snap ih =>
      obtain ⟨nm, value⟩ := q
      cases hs : startsWithL "on".data nm.data with
      | false =>
          simp only [onPass, hs] at h
          rw [if_neg Bool.false_ne_true] at h
          exact ih h
      | true =>
          simp only [onPass, hs] at h
          rw [if_pos trivial] at h
          by_cases hb : nm = "onclick" ∧ tag = "button"
          · rw [if_pos hb] at h
            cases halert : alertDirective value with
            | none =>
                simp only [halert] at h
                rcases ih h with ⟨w, hw⟩ | hdir
                · exact Or.inl ⟨w, (mem_removeAttr hw).1⟩
                · exact Or.inr hdir
            | some msg =>
                simp only [halert] at h
                rcases ih h with ⟨w, hw⟩ | hdir
                · rcases key_mem_setAttr (mem_removeAttr hw).1 with h3 | h3
                  · rcases key_mem_setAttr h3.choose_spec with h4 | h4
                    · exact Or.inl ⟨_, h4.choose_spec⟩
                    · exact Or.inr (Or.inl h4)
                  · exact Or.inr (Or.inr h3)
                · exact Or.inr hdir
          · rw [if_neg hb] at h
            rcases ih h with ⟨w, hw⟩ | hdir
            · exact Or.inl ⟨w, (mem_removeAttr hw).1⟩
            · exact Or.inr hdir

theorem attrsNoOn_iff {l : AttrList} :
    attrsNoOn l = true ↔ ∀ p ∈ l, startsWithL "on".data p.1.data = false := by
  simp [attrsNoOn, List.all_eq_true]

theorem attrsNoOn_onPass (tag : String) (snap : List (String × String)) (attrs : AttrList)
    (hcov : ∀ k v, (k, v) ∈ attrs → startsWithL "on".data k.data = true →
      k ∈ snap.map Prod.fst) :
    attrsNoOn (onPass tag snap attrs) = true := by
  induction snap generalizing attrs with
  | nil =>
      rw [show onPass tag [] attrs = attrs from rfl, attrsNoOn_iff]
      intro p hp
      cases hcase : startsWithL "on".data p.1.data with
      | false => rfl
      | true =>
          have hmem : (p.1, p.2) ∈ attrs := by rw [Prod.mk.eta]; exact hp
          have := hcov p.1 p.2 hmem hcase
          rw [List.map_nil] at this
          exact absurd this (List.not_mem_nil _)
  | cons q snap ih =>
      obtain ⟨nm, value⟩ := q
      cases hs : startsWithL "on".data nm.data with
      | false =>
          simp only [onPass, hs]
          rw [if_neg Bool.false_ne_true]
          apply ih
          intro k v hkv hk
          have := hcov k v hkv hk
          rw [List.map_cons] at this
          rcases List.mem_cons.mp this with h1 | h1
          · subst h1
            rw [hk] at hs
            exact Bool.noConfusion hs
          · exact h1
      | true =>
          have step : ∀ attrs2 : AttrList,
              (∀ k v, (k, v) ∈ attrs2 →
                ((∃ w, (k, w) ∈ attrs) ∨ k = "data-action-type" ∨ k = "data-alert-message")) →
              (∀ k v, (k, v) ∈ removeAttr attrs2 nm → startsWithL "on".data k.data = true →
                k ∈ snap.map Prod.fst) := by
            intro attrs2 hprov k v hkv hk
            have hne := (mem_removeAttr hkv).2
            rcases hprov k v (mem_removeAttr hkv).1 with ⟨w, hw⟩ | hdir | hdir
            · have := hcov k w hw hk
              rw [List.map_cons] at this
              rcases List.mem_cons.mp this with h1 | h1
              · exact absurd h1 hne
              · exact h1
            · subst hdir
              exact Bool.noConfusion hk
            · subst hdir
              exact Bool.noConfusion hk
          simp only [onPass, hs]
          rw [if_pos trivial]
          by_cases hb : nm = "onclick" ∧ tag = "button"
          · rw [if_pos hb]
            cases halert : alertDirective value with
            | none =>
                simp only [halert]
                exact ih _ (step attrs (fun k v hkv => Or.inl ⟨v, hkv⟩))
            | some msg =>
                simp only [halert]
                apply ih
                apply step
                intro k v hkv
                rcases key_mem_setAttr hkv with h3 | h3
                · rcases key_mem_setAttr h3.choose_spec with h4 | h4
                  · exact Or.inl ⟨_, h4.choose_spec⟩
                  · exact Or.inr (Or.inl h4)
                · exact Or.inr (Or.inr h3)
          · rw [if_neg hb]
            exact ih _ (step attrs (fun k v hkv => Or.inl ⟨v, hkv⟩))

theorem onPass_id (tag : String) (snap : List (String × String)) (attrs : AttrList)
    (h : ∀ p ∈ snap, startsWithL "on".data p.1.data = false) :
    onPass tag snap attrs = attrs := by
  induction snap with
  | nil => rfl
  | cons q snap ih =>
      obtain ⟨nm, value⟩ := q
      have hs : startsWithL "on".data nm.data = false := h (nm, value) (List.mem_cons_self _ _)
      simp only [onPass, hs]
      rw [if_neg Bool.false_ne_true]
      exact ih (fun p hp => h p (List.mem_cons_of_mem _ hp))

/-! ## Lemmas: the form-hijacking pass -/

theorem key_mem_dangerousAttrsPass {l : AttrList} {p : String × String}
    (h : p ∈ dangerousAttrsPass l) : p ∈ l :=
  (mem_removeAttr (mem_removeAttr (mem_removeAttr (mem_removeAttr h).1).1).1).1

theorem getAttr_dangerousAttrsPass (l : AttrList) (k : String)
    (h1 : k ≠ "formaction") (h2 : k ≠ "form") (h3 : k ≠ "formmethod")
    (h4 : k ≠ "formtarget") :
    getAttr (dangerousAttrsPass l) k = getAttr l k := by
  unfold dangerousAttrsPass
  rw [getAttr_removeAttr_ne _ _ _ h4, getAttr_removeAttr_ne _ _ _ h3,
    getAttr_removeAttr_ne _ _ _ h2, getAttr_removeAttr_ne _ _ _ h1]

theorem getAttr_dangerousAttrsPass_none (l : AttrList) (k : String)
    (h : k = "formaction" ∨ k = "form" ∨ k = "formmethod" ∨ k = "formtarget") :
    getAttr (dangerousAttrsPass l) k = none := by
  unfold dangerousAttrsPass
  rcases h with h | h | h | h
  · subst h
    rw [getAttr_removeAttr_ne _ _ _ (by decide), getAttr_removeAttr_ne _ _ _ (by decide),
      getAttr_removeAttr_ne _ _ _ (by decide), getAttr_removeAttr_self]
  · subst h
    rw [getAttr_removeAttr_ne _ _ _ (by decide), getAttr_removeAttr_ne _ _ _ (by decide),
      getAttr_removeAttr_self]
  · subst h
    rw [getAttr_removeAttr_ne _ _ _ (by decide), getAttr_removeAttr_self]
  · subst h
    rw [getAttr_removeAttr_self]

theorem dangerousAttrsPass_id {l : AttrList}
    (h1 : getAttr l "formaction" = none) (h2 : getAttr l "form" = none)
    (h3 : getAttr l "formmethod" = none) (h4 : getAttr l "formtarget" = none) :
    dangerousAttrsPass l = l := by
  unfold dangerousAttrsPass
  rw [removeAttr_of_getAttr_none h1, removeAttr_of_getAttr_none h2,
    removeAttr_of_getAttr_none h3, removeAttr_of_getAttr_none h4]

/-! ## Lemmas: the URI pass -/

theorem getAttr_uriPass_href (l : AttrList) :
    getAttr (uriPass l) "href" =
      (match getAttr l "href" with
       | some v => if badScheme v = true then some "#" else some v
       | none => none) := by
  unfold uriPass
  cases hh : getAttr l "href" with
  | none =>
      simp only [hh]
      cases hs : getAttr l "src" with
      | none => simp [hs, hh]
      | some w =>
          by_cases hb : badScheme w = true
          · simp [hs, hb, getAttr_removeAttr_ne _ _ _ (by decide : "href" ≠ "src"), hh]
          · simp [hs, hb, hh]
  | some v =>
      by_cases hbad : badScheme v = true
      · simp only [hh, if_pos hbad]
        have ha1 : getAttr (setAttr l "href" "#") "src" = getAttr l "src" :=
          getAttr_setAttr_ne _ _ _ _ (by decide)
        cases hs : getAttr l "src" with
        | none => simp [ha1, hs, getAttr_setAttr_self]
        | some w =>
            by_cases hb : badScheme w = true
            · simp [ha1, hs, hb, getAttr_removeAttr_ne _ _ _ (by decide : "href" ≠ "src"),
                getAttr_setAttr_self]
            · simp [ha1, hs, hb, getAttr_setAttr_self]
      · simp only [hh, if_neg hbad]
        cases hs : getAttr l "src" with
        | none => simp [hs, hh, hbad]
        | some w =>
            by_cases hb : badScheme w = true
            · simp [hs, hb, getAttr_removeAttr_ne _ _ _ (by decide : "href" ≠ "src"), hh, hbad]
            · simp [hs, hb, hh, hbad]

theorem getAttr_uriPass_src (l : AttrList) :
    getAttr (uriPass l) "src" =
      (match getAttr l "src" with
       | some v => if badScheme v = true then none else some v
       | none => none) := by
  unfold uriPass
  have key : ∀ a1 : AttrList, getAttr a1 "src" = getAttr l "src" →
      getAttr
        (match getAttr a1 "src" with
         | some v => if badScheme v then removeAttr a1 "src" else a1
         | none => a1) "src" =
      (match getAttr l "src" with
       | some v => if badScheme v = true then none else some v
       | none => none) := by
    intro a1 ha1
    cases hs : getAttr l "src" with
    | none => simp [ha1, hs]
    | some w =>
        by_cases hb : badScheme w = true
        · simp [ha1, hs, hb, getAttr_removeAttr_self]
        · simp [ha1, hs, hb]
  cases hh : getAttr l "href" with
  | none => exact key l rfl
  | some v =>
      by_cases hbad : badScheme v = true
      · simp only [hh, if_pos hbad]
        exact key _ (getAttr_setAttr_ne _ _ _ _ (by decide))
      · simp only [hh, if_neg hbad]
        exact key l rfl

theorem getAttr_uriPass_ne (l : AttrList) (k : String)
    (h1 : k ≠ "href") (h2 : k ≠ "src") :
    getAttr (uriPass l) k = getAttr l k := by
  unfold uriPass
  have key : ∀ a1 : AttrList, getAttr a1 k = getAttr l k →
      getAttr
        (match getAttr a1 "src" with
         | some v => if badScheme v then removeAttr a1 "src" else a1
         | none => a1) k = getAttr l k := by
    intro a1 ha1
    cases hs : getAttr a1 "src" with
    | none => exact ha1
    | some w =>
        by_cases hb : badScheme w = true
        · simp only [hs, hb, if_true]
          rw [getAttr_removeAttr_ne _ _ _ h2, ha1]
        · simp only [hs, hb, if_false]
          exact ha1
  cases hh : getAttr l "href" with
  | none => exact key l rfl
  | some v =>
      by_cases hbad : badScheme v = true
      · simp only [hh, if_pos hbad]
        exact key _ (getAttr_setAttr_ne _ _ _ _ h1)
      · simp only [hh, if_neg hbad]
        exact key l rfl

theorem key_mem_uriPass {l : AttrList} {p : String × String} (h : p ∈ uriPass l) :
    ∃ w, (p.1, w) ∈ l := by
  unfold uriPass at h
  have key : ∀ a1 : AttrList, (∀ q : String × String, q ∈ a1 → ∃ w, (q.1, w) ∈ l) →
      p ∈
        (match getAttr a1 "src" with
         | some v => if badScheme v then removeAttr a1 "src" else a1
         | none => a1) →
      ∃ w, (p.1, w) ∈ l := by
    intro a1 hprov hp
    cases hs : getAttr a1 "src" with
    | none =>
        simp only [hs] at hp
        exact hprov p hp
    | some w =>
        simp only [hs] at hp
        by_cases hb : badScheme w = true
        · rw [if_pos hb] at hp
          exact hprov _ (mem_removeAttr hp).1
        · rw [if_neg hb] at hp
          exact hprov p hp
  cases hh : getAttr l "href" with
  | none =>
      simp only [hh] at h
      exact key l (fun q hq => ⟨q.2, by rw [Prod.mk.eta]; exact hq⟩) h
  | some v =>
      simp only [hh] at h
      by_cases hbad : badScheme v = true
      · rw [if_pos hbad] at h
        refine key _ (fun q hq => ?_) h
        have hq2 : (q.1, q.2) ∈ setAttr l "href" "#" := by rw [Prod.mk.eta]; exact hq
        rcases key_mem_setAttr hq2 with h3 | h3
        · exact h3
        · exact ⟨v, by rw [h3]; exact getAttr_mem hh⟩
      · rw [if_neg hbad] at h
        exact key l (fun q hq => ⟨q.2, by rw [Prod.mk.eta]; exact hq⟩) h

theorem badScheme_hash : badScheme "#" = false := by decide

theorem attrsUriSafe_uriPass (l : AttrList) : attrsUriSafe (uriPass l) = true := by
  unfold attrsUriSafe
  rw [getAttr_uriPass_href, getAttr_uriPass_src]
  cases hh : getAttr l "href" with
  | none =>
      cases hs : getAttr l "src" with
      | none => rfl
      | some w =>
          by_cases hb : badScheme w = true
          · simp [hb]
          · simp [hb]
  | some v =>
      by_cases hbad : badScheme v = true
      · cases hs : getAttr l "src" with
        | none => simp [hbad, badScheme_hash]
        | some w =>
            by_cases hb : badScheme w = true
            · simp [hbad, hb, badScheme_hash]
            · simp [hbad, hb, badScheme_hash]
      · cases hs : getAttr l "src" with
        | none => simp [hbad]
        | some w =>
            by_cases hb : badScheme w = true
            · simp [hbad, hb]
            · simp [hbad, hb]

theorem uriPass_id {l : AttrList} (h : attrsUriSafe l = true) : uriPass l = l := by
  unfold attrsUriSafe at h
  unfold uriPass
  cases hh : getAttr l "href" with
  | none =>
      simp only [hh]
      cases hs : getAttr l "src" with
      | none => simp [hs]
      | some w =>
          rw [hh, hs] at h
          simp only [Bool.and_eq_true, Bool.not_eq_true'] at h
          simp [hs, h.2]
  | some v =>
      rw [hh] at h
      cases hs : getAttr l "src" with
      | none =>
          rw [hs] at h
          simp only [Bool.and_eq_true, Bool.not_eq_true'] at h
          simp [hh, hs, h.1]
      | some w =>
          rw [hs] at h
          simp only [Bool.and_eq_true, Bool.not_eq_true'] at h
          simp [hh, hs, h.1, h.2]

/-! ## Lemmas: the complete per-element rewriting -/

theorem attrsNoOn_sanitizeAttrs (tag : String) (attrs : AttrList) :
    attrsNoOn (sanitizeAttrs tag attrs) = true := by
  have h0 : attrsNoOn (onPass tag attrs attrs) = true :=
    attrsNoOn_onPass tag attrs attrs (fun k v hkv _ => List.mem_map_of_mem Prod.fst hkv)
  rw [attrsNoOn_iff] at h0
  rw [attrsNoOn_iff]
  intro p hp
  obtain ⟨w, hw⟩ := key_mem_uriPass hp
  exact h0 (p.1, w) (key_mem_dangerousAttrsPass hw)

theorem key_mem_sanitizeAttrs {tag : String} {attrs : AttrList} {k v : String}
    (h : (k, v) ∈ sanitizeAttrs tag attrs) :
    (∃ w, (k, w) ∈ attrs) ∨ k = "data-action-type" ∨ k = "data-alert-message" := by
  unfold sanitizeAttrs at h
  obtain ⟨w, hw⟩ := key_mem_uriPass h
  exact key_mem_onPass (key_mem_dangerousAttrsPass hw)

theorem attrsUriSafe_sanitizeAttrs (tag : String) (attrs : AttrList) :
    attrsUriSafe (sanitizeAttrs tag attrs) = true :=
  attrsUriSafe_uriPass _

theorem getAttr_sanitizeAttrs_on_none (tag : String) (attrs : AttrList) (k : String)
    (hk : startsWithL "on".data k.data = true) :
    getAttr (sanitizeAttrs tag attrs) k = none := by
  cases hget : getAttr (sanitizeAttrs tag attrs) k with
  | none => rfl
  | some v =>
      have hno := attrsNoOn_sanitizeAttrs tag attrs
      rw [attrsNoOn_iff] at hno
      have := hno _ (getAttr_mem hget)
      rw [hk] at this
      exact Bool.noConfusion this

theorem getAttr_sanitizeAttrs_href (tag : String) (attrs : AttrList) :
    getAttr (sanitizeAttrs tag attrs) "href" =
      (match getAttr attrs "href" with
       | some v => if badScheme v = true then some "#" else some v
       | none => none) := by
  unfold sanitizeAttrs
  rw [getAttr_uriPass_href,
    getAttr_dangerousAttrsPass _ _ (by decide) (by decide) (by decide) (by decide),
    getAttr_onPass _ _ _ _ (by decide) (by decide) (by decide)]

theorem getAttr_sanitizeAttrs_src (tag : String) (attrs : AttrList) :
    getAttr (sanitizeAttrs tag attrs) "src" =
      (match getAttr attrs "src" with
       | some v => if badScheme v = true then none else some v
       | none => none) := by
  unfold sanitizeAttrs
  rw [getAttr_uriPass_src,
    getAttr_dangerousAttrsPass _ _ (by decide) (by decide) (by decide) (by decide),
    getAttr_onPass _ _ _ _ (by decide) (by decide) (by decide)]

theorem sanitizeAttrs_idem (tag : String) (attrs : AttrList) :
    sanitizeAttrs tag (sanitizeAttrs tag attrs) = sanitizeAttrs tag attrs := by
  have hnoon := attrsNoOn_sanitizeAttrs tag attrs
  rw [attrsNoOn_iff] at hnoon
  have h1 : onPass tag (sanitizeAttrs tag attrs) (sanitizeAttrs tag attrs) =
      sanitizeAttrs tag attrs :=
    onPass_id _ _ _ (fun p hp => hnoon p hp)
  have hfour : ∀ k, (k = "formaction" ∨ k = "form" ∨ k = "formmethod" ∨ k = "formtarget") →
      getAttr (sanitizeAttrs tag attrs) k = none := by
    intro k hk
    show getAttr (uriPass (dangerousAttrsPass (onPass tag attrs attrs))) k = none
    rcases hk with h | h | h | h
    · subst h
      rw [getAttr_uriPass_ne _ _ (by decide) (by decide),
        getAttr_dangerousAttrsPass_none _ _ (Or.inl rfl)]
    · subst h
      rw [getAttr_uriPass_ne _ _ (by decide) (by decide),
        getAttr_dangerousAttrsPass_none _ _ (Or.inr (Or.inl rfl))]
    · subst h
      rw [getAttr_uriPass_ne _ _ (by decide) (by decide),
        getAttr_dangerousAttrsPass_none _ _ (Or.inr (Or.inr (Or.inl rfl)))]
    · subst h
      rw [getAttr_uriPass_ne _ _ (by decide) (by decide),
        getAttr_dangerousAttrsPass_none _ _ (Or.inr (Or.inr (Or.inr rfl)))]
  have h2 : dangerousAttrsPass (sanitizeAttrs tag attrs) = sanitizeAttrs tag attrs :=
    dangerousAttrsPass_id (hfour _ (Or.inl rfl)) (hfour _ (Or.inr (Or.inl rfl)))
      (hfour _ (Or.inr (Or.inr (Or.inl rfl)))) (hfour _ (Or.inr (Or.inr (Or.inr rfl))))
  have h3 : uriPass (sanitizeAttrs tag attrs) = sanitizeAttrs tag attrs :=
    uriPass_id (attrsUriSafe_sanitizeAttrs tag attrs)
  show uriPass (dangerousAttrsPass (onPass tag (sanitizeAttrs tag attrs)
    (sanitizeAttrs tag attrs))) = sanitizeAttrs tag attrs
  rw [h1, h2, h3]

/-! ## Tree-level theorems about the sanitizer -/

theorem fragNoScriptNoOn_sanitize : ∀ ns : NodeList,
    fragNoScriptNoOn (sanitizeNodeList ns) = true
  | NodeList.nil => rfl
  | NodeList.cons (Node.text s) rest => by
      simp [sanitizeNodeList, fragNoScriptNoOn, fragNoScriptNoOn_sanitize rest]
  | NodeList.cons (Node.elem tag attrs children) rest => by
      by_cases h : tag = "script"
      · simp [sanitizeNodeList, h, fragNoScriptNoOn_sanitize rest]
      · simp [sanitizeNodeList, h, fragNoScriptNoOn, attrsNoOn_sanitizeAttrs,
          fragNoScriptNoOn_sanitize children, fragNoScriptNoOn_sanitize rest]

theorem fragUriSafe_sanitize : ∀ ns : NodeList,
    fragUriSafe (sanitizeNodeList ns) = true
  | NodeList.nil => rfl
  | NodeList.cons (Node.text s) rest => by
      simp [sanitizeNodeList, fragUriSafe, fragUriSafe_sanitize rest]
  | NodeList.cons (Node.elem tag attrs children) rest => by
      by_cases h : tag = "script"
      · simp [sanitizeNodeList, h, fragUriSafe_sanitize rest]
      · simp [sanitizeNodeList, h, fragUriSafe, attrsUriSafe_sanitizeAttrs,
          fragUriSafe_sanitize children, fragUriSafe_sanitize rest]

theorem sanitizeNodeList_idem : ∀ ns : NodeList,
    sanitizeNodeList (sanitizeNodeList ns) = sanitizeNodeList ns
  | NodeList.nil => rfl
  | NodeList.cons (Node.text s) rest => by
      simp [sanitizeNodeList, sanitizeNodeList_idem rest]
  | NodeList.cons (Node.elem tag attrs children) rest => by
      by_cases h : tag = "script"
      · simp [sanitizeNodeList, h, sanitizeNodeList_idem rest]
      · simp [sanitizeNodeList, h, sanitizeAttrs_idem, sanitizeNodeList_idem children,
          sanitizeNodeList_idem rest]

/-! ## Lemmas: bounds of the context extractor -/

theorem take_ctx_good (t : List Char) (h : t ≠ []) :
    0 < (String.mk (t.take MAX_CONTEXT_LENGTH)).length ∧
      (String.mk (t.take MAX_CONTEXT_LENGTH)).length ≤ MAX_CONTEXT_LENGTH := by
  have hlen : (String.mk (t.take MAX_CONTEXT_LENGTH)).length = (t.take MAX_CONTEXT_LENGTH).length := rfl
  rw [hlen, List.length_take]
  constructor
  · exact lt_min (by decide) (List.length_pos.mpr h)
  · exact min_le_left _ _

theorem headingHit_good {frag : NodeList} {tg s : String}
    (h : headingHit frag tg = some s) :
    0 < s.length ∧ s.length ≤ MAX_CONTEXT_LENGTH := by
  unfold headingHit at h
  cases hf : findElem (fun t _ => t = tg) frag with
  | none => rw [hf] at h; exact Option.noConfusion h
  | some r =>
      obtain ⟨t1, a1, c1⟩ := r
      rw [hf] at h
      cases ht : jsTrimL (textContentL c1) with
      | nil =>
          simp only [ht] at h
          exact Option.noConfusion h
      | cons c rest =>
          simp only [ht] at h
          obtain rfl := Option.some.inj h
          exact take_ctx_good _ (by simp)

theorem titleHit_good {frag : NodeList} {s : String}
    (h : titleHit frag = some s) :
    0 < s.length ∧ s.length ≤ MAX_CONTEXT_LENGTH := by
  unfold titleHit at h
  cases hf : findElem (fun _ a => hasAttrB a "data-title" || hasAttrB a "title") frag with
  | none => rw [hf] at h; exact Option.noConfusion h
  | some r =>
      obtain ⟨t1, a1, c1⟩ := r
      rw [hf] at h
      simp only at h
      cases hch :
          (match getAttr a1 "data-title" with
           | some dv => if dv = "" then getAttr a1 "title" else some dv
           | none => getAttr a1 "title") with
      | none => rw [hch] at h; exact Option.noConfusion h
      | some tv =>
          rw [hch] at h
          cases ht : jsTrimL tv.data with
          | nil =>
              simp only [ht] at h
              exact Option.noConfusion h
          | cons c rest =>
              simp only [ht] at h
              obtain rfl := Option.some.inj h
              exact take_ctx_good _ (by simp)

theorem paraHit_good : ∀ {ps : List NodeList} {s : String},
    paraHit ps = some s → 0 < s.length ∧ s.length ≤ MAX_CONTEXT_LENGTH := by
  intro ps
  induction ps with
  | nil => intro s h; exact Option.noConfusion h
  | cons c1 rest ih =>
      intro s h
      unfold paraHit at h
      cases ht : jsTrimL (textContentL c1) with
      | nil =>
          simp only [ht] at h
          exact ih h
      | cons c cs =>
          simp only [ht] at h
          by_cases hlen : MIN_MEANINGFUL_TEXT_LENGTH < (c :: cs).length
          · rw [if_pos hlen] at h
            obtain rfl := Option.some.inj h
            exact take_ctx_good _ (by simp)
          · rw [if_neg hlen] at h
            exact ih h

theorem allTextHit_good {frag : NodeList} {s : String}
    (h : allTextHit frag = some s) :
    0 < s.length ∧ s.length ≤ MAX_CONTEXT_LENGTH := by
  unfold allTextHit at h
  cases ht : jsTrimL (textContentL frag) with
  | nil =>
      simp only [ht] at h
      exact Option.noConfusion h
  | cons c rest =>
      simp only [ht] at h
      cases hf : jsTrimL ((c :: rest).takeWhile (fun c => !(c = '\n'))) with
      | nil =>
          simp only [hf] at h
          exact Option.noConfusion h
      | cons c2 rest2 =>
          simp only [hf] at h
          obtain rfl := Option.some.inj h
          exact take_ctx_good _ (by simp)

theorem firstSome_mem : ∀ {L : List (Option String)} {s : String},
    firstSome L = some s → some s ∈ L := by
  intro L
  induction L with
  | nil => intro s h; exact Option.noConfusion h
  | cons o rest ih =>
      intro s h
      cases o with
      | some s0 =>
          obtain rfl := Option.some.inj h
          exact List.mem_cons_self _ _
      | none => exact List.mem_cons_of_mem _ (ih h)

theorem extractContext_good (frag : NodeList) :
    0 < (extractContextFromHTML frag).length ∧
      (extractContextFromHTML frag).length ≤ MAX_CONTEXT_LENGTH := by
  unfold extractContextFromHTML
  cases hfs : firstSome
      [headingHit frag "h1", headingHit frag "h2", headingHit frag "h3",
       headingHit frag "h4", headingHit frag "h5", headingHit frag "h6",
       titleHit frag, paraHit (elemsOfTag "p" frag), allTextHit frag] with
  | none => exact ⟨by decide, by decide⟩
  | some s =>
      have hmem := firstSome_mem hfs
      simp only [List.mem_cons, List.not_mem_nil, or_false] at hmem
      rcases hmem with h | h | h | h | h | h | h | h | h
      · exact headingHit_good h.symm
      · exact headingHit_good h.symm
      · exact headingHit_good h.symm
      · exact headingHit_good h.symm
      · exact headingHit_good h.symm
      · exact headingHit_good h.symm
      · exact titleHit_good h.symm
      · exact paraHit_good h.symm
      · exact allTextHit_good h.symm

/-! ## Lemmas: the history machine -/

theorem addToHistory_cursor_last {α : Type} (s : HistState α) (e : α) :
    (addToHistory s e).current = ((addToHistory s e).history.length : Int) - 1 := rfl

theorem addToHistory_truncates {α : Type} (s : HistState α) (e : α)
    (h0 : 0 ≤ s.current) (h1 : s.current < (s.history.length : Int) - 1) :
    (addToHistory s e).history = s.history.take (s.current + 1).toNat ++ [e] := by
  unfold addToHistory jsSliceTo
  simp only [if_pos h1]
  have : max (s.current + 1) 0 = s.current + 1 := by omega
  rw [this]

theorem navigateToHistoryIndex_invalid {α : Type} (s : HistState α) (i : Int)
    (h : i < 0 ∨ (s.history.length : Int) ≤ i) :
    navigateToHistoryIndex s i = s := by
  unfold navigateToHistoryIndex
  rw [if_pos h]

theorem histInv_apply {α : Type} (s : HistState α) (op : HistOp α)
    (h : histInv s) : histInv (applyHistOp s op) := by
  cases op with
  | commit e =>
      constructor
      · intro hemp
        exact absurd hemp (by simp [applyHistOp, addToHistory])
      · intro _
        show (0 : Int) ≤ (_ : Int) ∧ _
        unfold applyHistOp addToHistory
        simp only [List.length_append, List.length_cons, List.length_nil]
        constructor
        · omega
        · omega
  | nav i =>
      simp only [applyHistOp, navigateToHistoryIndex]
      by_cases hc : i < 0 ∨ (s.history.length : Int) ≤ i
      · rw [if_pos hc]
        exact h
      · rw [if_neg hc]
        push_neg at hc
        constructor
        · intro hemp
          rw [hemp] at hc
          simp at hc
          omega
        · intro _
          exact ⟨hc.1, hc.2⟩

theorem histInv_run {α : Type} : ∀ (ops : List (HistOp α)) (s : HistState α),
    histInv s → histInv (runHistOps s ops) := by
  intro ops
  induction ops with
  | nil => intro s h; exact h
  | cons op rest ih => intro s h; exact ih _ (histInv_apply s op h)

theorem histInv_initial (α : Type) : histInv (initialHist α) :=
  ⟨fun _ => rfl, fun h => absurd rfl h⟩

/-! ## Lemmas: metadata records -/

theorem lookupJ_setJ_self (m : MRec) (a : String) (b : JVal) :
    lookupJ (setJ m a b) a = some b := by
  induction m with
  | nil => simp [setJ, lookupJ]
  | cons p rest ih =>
      obtain ⟨k1, v1⟩ := p
      by_cases hk : k1 = a
      · simp [setJ, hk, lookupJ]
      · simp [setJ, hk, lookupJ, ih]

theorem lookupJ_setJ_ne (m : MRec) (a : String) (b : JVal) (k : String) (h : k ≠ a) :
    lookupJ (setJ m a b) k = lookupJ m k := by
  induction m with
  | nil =>
      simp only [setJ, lookupJ]
      rw [if_neg (fun hh => h hh.symm)]
  | cons p rest ih =>
      obtain ⟨k1, v1⟩ := p
      by_cases hk : k1 = a
      · subst hk
        have hne : ¬ k1 = k := fun hh => h hh.symm
        simp [setJ, lookupJ, hne]
      · by_cases hk2 : k1 = k
        · subst hk2
          simp [setJ, hk, lookupJ]
        · simp [setJ, hk, lookupJ, hk2, ih]

theorem startsWithL_decomp : ∀ (pat s : List Char),
    startsWithL pat s = true → s = pat ++ s.drop pat.length := by
  intro pat
  induction pat with
  | nil => intro s _; simp
  | cons p ps ih =>
      intro s h
      cases s with
      | nil => exact Bool.noConfusion h
      | cons c cs =>
          simp only [startsWithL, Bool.and_eq_true, decide_eq_true_eq] at h
          obtain ⟨rfl, h2⟩ := h
          simpa using ih cs h2

theorem startsWithL_append_self : ∀ (pat t : List Char),
    startsWithL pat (pat ++ t) = true := by
  intro pat
  induction pat with
  | nil => intro t; rfl
  | cons p ps ih => intro t; simp [startsWithL, ih]

theorem lookupJ_collectAttrsMeta_ne {attrs : List (String × String)} {k : String}
    (hk : ∀ v, ("data-" ++ k, v) ∉ attrs) :
    ∀ m : MRec, lookupJ (collectAttrsMeta attrs m) k = lookupJ m k := by
  induction attrs with
  | nil => intro m; rfl
  | cons q rest ih =>
      obtain ⟨k1, v1⟩ := q
      intro m
      have hk' : ∀ v, ("data-" ++ k, v) ∉ rest :=
        fun v hv => hk v (List.mem_cons_of_mem _ hv)
      by_cases hcond : (startsWithL "data-".data k1.data && !(k1 = "data-action-type") &&
          !(k1 = "data-alert-message")) = true
      · simp only [collectAttrsMeta, hcond, if_true]
        rw [ih hk']
        apply lookupJ_setJ_ne
        intro hkey
        have hsw : startsWithL "data-".data k1.data = true := by
          simp only [Bool.and_eq_true] at hcond
          exact hcond.1.1
        have hdec := startsWithL_decomp _ _ hsw
        have hdata : k1.data.drop 5 = k.data := by
          have := congrArg String.data hkey.symm
          exact this
        have hk1 : k1 = "data-" ++ k := by
          apply String.ext
          rw [hdec]
          have h5 : ("data-".data).length = 5 := rfl
          rw [h5, hdata]
          rfl
        exact hk v1 (by rw [← hk1]; exact List.mem_cons_self _ _)
      · simp only [collectAttrsMeta, hcond, if_false]
        exact ih hk' m

theorem lookupJ_collectAttrsMeta_write {attrs : List (String × String)} {k v : String}
    (hmem : ("data-" ++ k, v) ∈ attrs)
    (hnodup : (attrs.map Prod.fst).Nodup)
    (h1 : ¬("data-" ++ k = "data-action-type")) (h2 : ¬("data-" ++ k = "data-alert-message")) :
    ∀ m : MRec, lookupJ (collectAttrsMeta attrs m) k = some (parseOrString v) := by
  induction attrs with
  | nil => cases hmem
  | cons q rest ih =>
      obtain ⟨k1, v1⟩ := q
      intro m
      rw [List.map_cons, List.nodup_cons] at hnodup
      rcases List.mem_cons.mp hmem with heq | hrest
      · have hk1 : k1 = "data-" ++ k := (Prod.mk.injEq _ _ _ _ ▸ heq.symm).1
        have hv1 : v1 = v := (Prod.mk.injEq _ _ _ _ ▸ heq.symm).2
        subst hk1
        subst hv1
        have hsw : startsWithL "data-".data ("data-" ++ k).data = true := by
          have : ("data-" ++ k).data = "data-".data ++ k.data := rfl
          rw [this]
          exact startsWithL_append_self _ _
        have hcond : (startsWithL "data-".data ("data-" ++ k).data &&
            !("data-" ++ k = "data-action-type") && !("data-" ++ k = "data-alert-message")) = true := by
          rw [Bool.and_eq_true, Bool.and_eq_true]
          refine ⟨⟨hsw, ?_⟩, ?_⟩
          · simp [h1]
          · simp [h2]
        simp only [collectAttrsMeta, hcond, if_true]
        have hkey : String.mk (("data-" ++ k).data.drop 5) = k := by
          have hd : ("data-" ++ k).data = "data-".data ++ k.data := rfl
          rw [hd]
          have h5 : ("data-".data).length = 5 := rfl
          rw [← h5, List.drop_left]
        rw [hkey]
        have hnot : ∀ w, ("data-" ++ k, w) ∉ rest := by
          intro w hw
          have h1m : ("data-" ++ k) ∈ List.map Prod.fst rest :=
            List.mem_map_of_mem Prod.fst hw
          have h2m : ("data-" ++ k) ∉ List.map Prod.fst rest := by
            simpa using hnodup.1
          exact h2m h1m
        rw [lookupJ_collectAttrsMeta_ne hnot]
        exact lookupJ_setJ_self _ _ _
      · by_cases hcond : (startsWithL "data-".data k1.data && !(k1 = "data-action-type") &&
            !(k1 = "data-alert-message")) = true
        · simp only [collectAttrsMeta, hcond, if_true]
          exact ih hrest hnodup.2 _
        · simp only [collectAttrsMeta, hcond, if_false]
          exact ih hrest hnodup.2 m

theorem lookupJ_collect_count {tag : String} {attrs : List (String × String)} {parent : MRec}
    (hno : ∀ v, ("data-interactionCount", v) ∉ attrs) :
    lookupJ (collectInteractionMetadata tag attrs parent) "interactionCount" =
      some (interactionCountSucc (lookupJ parent "interactionCount")) := by
  unfold collectInteractionMetadata
  rw [lookupJ_setJ_self]
  have hno2 : ∀ v, ("data-" ++ "interactionCount", v) ∉ attrs := by
    intro v
    exact hno v
  rw [lookupJ_collectAttrsMeta_ne hno2, lookupJ_setJ_ne _ _ _ _ (by decide)]

theorem lookupJ_collect_carried {tag : String} {attrs : List (String × String)}
    {parent : MRec} {k : String}
    (hk1 : k ≠ "lastInteractionType") (hk2 : k ≠ "interactionCount")
    (hk3 : ∀ v, ("data-" ++ k, v) ∉ attrs) :
    lookupJ (collectInteractionMetadata tag attrs parent) k = lookupJ parent k := by
  unfold collectInteractionMetadata
  rw [lookupJ_setJ_ne _ _ _ _ hk2, lookupJ_collectAttrsMeta_ne hk3,
    lookupJ_setJ_ne _ _ _ _ hk1]

theorem lookupJ_collect_precedence {tag : String} {attrs : List (String × String)}
    {parent : MRec} {k v : String}
    (hmem : ("data-" ++ k, v) ∈ attrs)
    (hnodup : (attrs.map Prod.fst).Nodup)
    (hk2 : k ≠ "interactionCount")
    (h1 : ¬("data-" ++ k = "data-action-type")) (h2 : ¬("data-" ++ k = "data-alert-message")) :
    lookupJ (collectInteractionMetadata tag attrs parent) k = some (parseOrString v) := by
  unfold collectInteractionMetadata
  rw [lookupJ_setJ_ne _ _ _ _ hk2]
  exact lookupJ_collectAttrsMeta_write hmem hnodup h1 h2 _

/-! ## Lemmas: orchestrator failure paths -/

theorem generateExperience_fail_theme (st : AppState) (m : String)
    (expTypeR : Except String String) (r : Nat) (o : Nat → Except String NodeList) :
    generateExperienceModel st (Except.error m) expTypeR r o =
      { st with display := Display.errorPanel m } := rfl

theorem generateExperience_fail_type (st : AppState) (theme m : String) (r : Nat)
    (o : Nat → Except String NodeList) :
    generateExperienceModel st (Except.ok theme) (Except.error m) r o =
      { st with display := Display.errorPanel m } := rfl

theorem generateExperience_fail_steps (st : AppState) (theme expType : String) (r : Nat)
    (o : Nat → Except String NodeList) (m : String)
    (h : runGenStepsLast o (planExperience ENABLE_AGENTIC_LOOP theme expType r).totalSteps 1
      NodeList.nil = Except.error m) :
    generateExperienceModel st (Except.ok theme) (Except.ok expType) r o =
      { st with display := Display.errorPanel m } := by
  unfold generateExperienceModel
  simp only [h]

theorem handleInteraction_fail (st : AppState) (tag : String) (attrs : AttrList)
    (textC parentContextId : String) (parentMetadata : MRec)
    (o : Nat → Except String NodeList) (m : String)
    (h : interactionGenResult parentMetadata o = Except.error m) :
    handleInteractionModel st tag attrs textC parentContextId parentMetadata o =
      { st with display := Display.reloadPanel m } := by
  unfold handleInteractionModel
  simp only [h]

/-! ## Lemmas: the onclick directive on a button -/

theorem alertDirective_iff (v : String) :
    (alertDirective v).isSome =
      (isValidAlertCall (jsTrimL (normalizeEscapes v.data)) &&
       !hasDangerousKeywords (normalizeEscapes v.data) &&
       usesSafeMathOnly (normalizeEscapes v.data) &&
       (extractAlertMessage (normalizeEscapes v.data)).isSome) := by
  unfold alertDirective
  by_cases hg : (isValidAlertCall (jsTrimL (normalizeEscapes v.data)) &&
      !hasDangerousKeywords (normalizeEscapes v.data) &&
      usesSafeMathOnly (normalizeEscapes v.data)) = true
  · simp only [hg, if_true, Bool.true_and]
    cases hx : extractAlertMessage (normalizeEscapes v.data) with
    | none => simp [hx]
    | some msg => simp [hx]
  · simp only [hg]
    simp

theorem sanitizeAttrs_button_onclick (v : String) :
    getAttr (sanitizeAttrs "button" [("onclick", v)]) "data-alert-message" = alertDirective v ∧
    getAttr (sanitizeAttrs "button" [("onclick", v)]) "data-action-type" =
      (alertDirective v).map (fun _ => "alert") ∧
    getAttr (sanitizeAttrs "button" [("onclick", v)]) "onclick" = none := by
  refine ⟨?_, ?_, getAttr_sanitizeAttrs_on_none _ _ _ (by decide)⟩ <;>
  · show getAttr (uriPass (dangerousAttrsPass
        (onPass "button" [("onclick", v)] [("onclick", v)]))) _ = _
    have hsw : startsWithL "on".data "onclick".data = true := by decide
    simp only [onPass, hsw, if_pos trivial]
    rw [if_pos ⟨trivial, trivial⟩]
    cases halert : alertDirective v with
    | none =>
        simp [removeAttr, onPass, dangerousAttrsPass, uriPass, getAttr]
    | some msg =>
        simp [setAttr, removeAttr, onPass, dangerousAttrsPass, uriPass, getAttr]

/-! ## The claims -/

/-- C1: for every parsed fragment (totality over arbitrary input is the
parser boundary; the sanitizer itself is a total function), the sanitized
result contains no `script` node and no attribute whose name starts with
`on`; and the only attribute names the sanitizer can introduce on an element
are the two reserved directive attributes `data-action-type` and
`data-alert-message`. -/
theorem c1_sanitizer_safety :
    (∀ ns : NodeList, fragNoScriptNoOn (sanitizeNodeList ns) = true) ∧
    (∀ (tag : String) (attrs : AttrList) (k v : String), (k, v) ∈ sanitizeAttrs tag attrs →
      (∃ w, (k, w) ∈ attrs) ∨ k = "data-action-type" ∨ k = "data-alert-message") :=
  ⟨fragNoScriptNoOn_sanitize, fun _ _ _ _ h => key_mem_sanitizeAttrs h⟩

/-- Witness for C1 at a concrete element: `alt` survives sanitization of an
`img` carrying an event handler, and its provenance disjunction holds. -/
theorem c1_witness :
    ("alt", "x") ∈ sanitizeAttrs "img" [("alt", "x"), ("onload", "evil()")] ∧
    ((∃ w, ("alt", w) ∈ ([("alt", "x"), ("onload", "evil()")] : AttrList)) ∨
      "alt" = "data-action-type" ∨ "alt" = "data-alert-message") :=
  ⟨by decide, c1_sanitizer_safety.2 "img" [("alt", "x"), ("onload", "evil()")] "alt" "x"
    (by decide)⟩

/-- C2 counterexample: on a `button`, `onclick="alert(1)alert(2)"` (two
juxtaposed calls, no semicolon) passes the shape regex, the keyword filter
and the Math check, and the matching-parenthesis extraction emits
`data-alert-message="1"` — although the handler text is not a single
`alert(...)` call (`specSingleAlertCall` is false).  The claim's "if and
only if" therefore fails in the only-if direction at this input. -/
theorem c2_counterexample :
    ¬ ((getAttr (sanitizeAttrs "button" [("onclick", "alert(1)alert(2)")])
          "data-alert-message").isSome =
        (specSingleAlertCall (normalizeEscapes "alert(1)alert(2)".data) &&
         !hasDangerousKeywords (normalizeEscapes "alert(1)alert(2)".data) &&
         usesSafeMathOnly (normalizeEscapes "alert(1)alert(2)".data))) := by
  decide

/-- C2 (amended): on a button the original `onclick` (and every other
event-handler attribute, on every element) is always removed; the directive
attributes are emitted exactly when the escape-normalized value matches the
`^alert\s*\(.+\)\s*$` shape, contains no statement separator or dangerous
reference, uses only allow-listed Math methods, and the scan from the first
parenthesis finds a matching close — the message being the text between
those parentheses (so text after the matching close, e.g. a juxtaposed
second call without `;`, does not prevent emission).  In particular
`alert(Math.floor(Math.random()*20)+1)` yields message
`Math.floor(Math.random()*20)+1`, while `alert(document.cookie)`,
`alert(1);alert(2)` and `alert(eval('1'))` yield no directives, and
`alert(1)alert(2)` yields message `1`. -/
theorem c2_alert_directive_amended :
    (∀ (tag : String) (attrs : AttrList),
      getAttr (sanitizeAttrs tag attrs) "onclick" = none) ∧
    (∀ v : String,
      getAttr (sanitizeAttrs "button" [("onclick", v)]) "data-alert-message" = alertDirective v ∧
      getAttr (sanitizeAttrs "button" [("onclick", v)]) "data-action-type" =
        (alertDirective v).map (fun _ => "alert")) ∧
    (∀ v : String, (alertDirective v).isSome =
      (isValidAlertCall (jsTrimL (normalizeEscapes v.data)) &&
       !hasDangerousKeywords (normalizeEscapes v.data) &&
       usesSafeMathOnly (normalizeEscapes v.data) &&
       (extractAlertMessage (normalizeEscapes v.data)).isSome)) ∧
    alertDirective "alert(Math.floor(Math.random()*20)+1)" =
      some "Math.floor(Math.random()*20)+1" ∧
    alertDirective "alert(document.cookie)" = none ∧
    alertDirective "alert(1);alert(2)" = none ∧
    alertDirective "alert(eval('1'))" = none ∧
    alertDirective "alert(1)alert(2)" = some "1" :=
  ⟨fun tag attrs => getAttr_sanitizeAttrs_on_none tag attrs _ (by decide),
   fun v => ⟨(sanitizeAttrs_button_onclick v).1, (sanitizeAttrs_button_onclick v).2.1⟩,
   alertDirective_iff,
   by decide, by decide, by decide, by decide, by decide⟩

/-- C3: no element of a sanitized fragment carries a `javascript:`, `data:`
or `vbscript:` scheme (after trimming, case-insensitively) in `href` or
`src`; a blocked `href` is rewritten to the no-op anchor `#`, a blocked
`src` is removed outright; concretely, `href="javascript:alert(1)"` becomes
`href="#"` and `src="data:text/html,..."` is removed. -/
theorem c3_uri_neutralization :
    (∀ ns : NodeList, fragUriSafe (sanitizeNodeList ns) = true) ∧
    (∀ (tag : String) (attrs : AttrList) (v : String),
      getAttr attrs "href" = some v → badScheme v = true →
      getAttr (sanitizeAttrs tag attrs) "href" = some "#") ∧
    (∀ (tag : String) (attrs : AttrList) (v : String),
      getAttr attrs "src" = some v → badScheme v = true →
      getAttr (sanitizeAttrs tag attrs) "src" = none) ∧
    sanitizeNodeList
        (toNodeList [Node.elem "a" [("href", "javascript:alert(1)")] NodeList.nil]) =
      toNodeList [Node.elem "a" [("href", "#")] NodeList.nil] ∧
    sanitizeNodeList
        (toNodeList [Node.elem "img" [("src", "data:text/html,<script>")] NodeList.nil]) =
      toNodeList [Node.elem "img" [] NodeList.nil] := by
  refine ⟨fragUriSafe_sanitize, ?_, ?_, by rfl, by rfl⟩
  · intro tag attrs v hv hbad
    simp only [getAttr_sanitizeAttrs_href, hv]
    rw [if_pos hbad]
  · intro tag attrs v hv hbad
    simp only [getAttr_sanitizeAttrs_src, hv]
    rw [if_pos hbad]

/-- Witness for C3 at concrete attribute lists. -/
theorem c3_witness :
    getAttr (sanitizeAttrs "a" [("href", " JavaScript:alert(1)")]) "href" = some "#" ∧
    getAttr (sanitizeAttrs "iframe" [("src", "VBScript:x")]) "src" = none :=
  ⟨c3_uri_neutralization.2.1 "a" [("href", " JavaScript:alert(1)")] " JavaScript:alert(1)"
      (by decide) (by decide),
   c3_uri_neutralization.2.2.1 "iframe" [("src", "VBScript:x")] "VBScript:x"
      (by decide) (by decide)⟩

/-- C4: committing with the cursor strictly before the last index first
discards every entry after the cursor, then appends, leaving the cursor at
the new last index; from log `[A, B, C]` with the cursor on `A`, committing
`D` yields exactly `[A, D]` with the cursor on `D`. -/
theorem c4_history_fork :
    (∀ (α : Type) (s : HistState α) (e : α), 0 ≤ s.current →
      s.current < (s.history.length : Int) - 1 →
      (addToHistory s e).history = s.history.take (s.current + 1).toNat ++ [e] ∧
      (addToHistory s e).current = ((addToHistory s e).history.length : Int) - 1) ∧
    addToHistory (HistState.mk ["A", "B", "C"] 0) "D" = HistState.mk ["A", "D"] 1 :=
  ⟨fun _ s e h0 h1 => ⟨addToHistory_truncates s e h0 h1, rfl⟩, rfl⟩

/-- Witness for C4 at the concrete `[A, B, C]` log. -/
theorem c4_witness :
    (addToHistory (HistState.mk ["A", "B", "C"] 0) "D").history =
      (["A", "B", "C"].take ((0 : Int) + 1).toNat) ++ ["D"] :=
  (c4_history_fork.1 String (HistState.mk ["A", "B", "C"] 0) "D" (by decide) (by decide)).1

/-- C5 counterexample: the merge of §8's example also records the activated
element's tag under the reserved key `lastInteractionType`, so the result is
not exactly `\x7blevel:1, gold:25, interactionCount:1\x7d`: the two records
differ at the key `lastInteractionType`. -/
theorem c5_counterexample :
    ¬ (∀ k, lookupJ (collectInteractionMetadata "BUTTON" [("data-gold", "25")]
        [("level", JVal.jnum 1), ("gold", JVal.jnum 10)]) k =
      lookupJ [("level", JVal.jnum 1), ("gold", JVal.jnum 25),
        ("interactionCount", JVal.jnum 1)] k) :=
  fun h => Option.noConfusion (h "lastInteractionType")

/-- C5 (amended): every `data-*` attribute key (outside the reserved
directive names, and other than `interactionCount` itself) overwrites the
same-named parent key with the JSON-parsed (or raw-string) value;
`interactionCount` becomes the parent's numeric count plus one (one when
absent); parent keys not written by the element and distinct from the two
reserved keys are carried unchanged; and the element's lower-cased tag is
recorded under `lastInteractionType`, so §8's example yields exactly
`\x7blevel:1, gold:25, lastInteractionType:"button", interactionCount:1\x7d`. -/
theorem c5_metadata_merge_amended :
    (∀ (tag : String) (attrs : List (String × String)) (parent : MRec) (k v : String),
      ("data-" ++ k, v) ∈ attrs → (attrs.map Prod.fst).Nodup →
      k ≠ "interactionCount" → ¬("data-" ++ k = "data-action-type") →
      ¬("data-" ++ k = "data-alert-message") →
      lookupJ (collectInteractionMetadata tag attrs parent) k = some (parseOrString v)) ∧
    (∀ (tag : String) (attrs : List (String × String)) (parent : MRec),
      (∀ v, ("data-interactionCount", v) ∉ attrs) →
      lookupJ (collectInteractionMetadata tag attrs parent) "interactionCount" =
        some (interactionCountSucc (lookupJ parent "interactionCount"))) ∧
    (∀ n : Int, interactionCountSucc (some (JVal.jnum n)) = JVal.jnum (n + 1)) ∧
    interactionCountSucc none = JVal.jnum 1 ∧
    (∀ (tag : String) (attrs : List (String × String)) (parent : MRec) (k : String),
      k ≠ "lastInteractionType" → k ≠ "interactionCount" →
      (∀ v, ("data-" ++ k, v) ∉ attrs) →
      lookupJ (collectInteractionMetadata tag attrs parent) k = lookupJ parent k) ∧
    collectInteractionMetadata "BUTTON" [("data-gold", "25")]
        [("level", JVal.jnum 1), ("gold", JVal.jnum 10)] =
      [("level", JVal.jnum 1), ("gold", JVal.jnum 25),
       ("lastInteractionType", JVal.jstr "button"), ("interactionCount", JVal.jnum 1)] :=
  ⟨fun _ _ _ _ _ hmem hnodup hk2 h1 h2 =>
      lookupJ_collect_precedence hmem hnodup hk2 h1 h2,
   fun _ _ _ hno => lookupJ_collect_count hno,
   fun _ => rfl, rfl,
   fun _ _ _ _ hk1 hk2 hk3 => lookupJ_collect_carried hk1 hk2 hk3,
   rfl⟩

/-- Witness for C5 at a concrete element and parent record. -/
theorem c5_witness :
    lookupJ (collectInteractionMetadata "a" [("data-x", "5")] [("y", JVal.jnum 2)]) "x" =
      some (parseOrString "5") ∧
    lookupJ (collectInteractionMetadata "a" [("data-x", "5")] [("y", JVal.jnum 2)])
        "interactionCount" =
      some (interactionCountSucc (lookupJ [("y", JVal.jnum 2)] "interactionCount")) ∧
    lookupJ (collectInteractionMetadata "a" [("data-x", "5")] [("y", JVal.jnum 2)]) "y" =
      lookupJ [("y", JVal.jnum 2)] "y" :=
  ⟨c5_metadata_merge_amended.1 "a" [("data-x", "5")] [("y", JVal.jnum 2)] "x" "5"
      (by decide) (by decide) (by decide) (by decide) (by decide),
   c5_metadata_merge_amended.2.1 "a" [("data-x", "5")] [("y", JVal.jnum 2)]
      (fun v hv => by simp at hv),
   c5_metadata_merge_amended.2.2.2.2.1 "a" [("data-x", "5")] [("y", JVal.jnum 2)] "y"
      (by decide) (by decide) (fun v hv => by simp at hv)⟩

/-- C6 counterexample: with the default configuration, `"static gallery"`
is classified complex — the keyword list contains `gallery` — so the plan
has 2 steps at this randomness, not exactly 1 as claimed. -/
theorem c6_counterexample :
    ¬ ((planExperience ENABLE_AGENTIC_LOOP "space opera" "static gallery" 0).totalSteps = 1) := by
  decide

/-- C6 (amended): for every theme and randomness, `"turn-based battle
system"` is classified complex with a step count in `[2, MAX_AGENTIC_STEPS]`
and multiple steps required; `"static gallery"` is likewise classified
complex (2..MAX steps) because `gallery` is in the keyword list; a type with
no keyword token such as `"plain text"` gets exactly one step; and the plan
never depends on the theme. -/
theorem c6_planner_amended :
    (∀ (theme : String) (r : Nat),
      (planExperience true theme "turn-based battle system" r).complexity = "high" ∧
      (planExperience true theme "turn-based battle system" r).needsMultipleSteps = true ∧
      2 ≤ (planExperience true theme "turn-based battle system" r).totalSteps ∧
      (planExperience true theme "turn-based battle system" r).totalSteps ≤ MAX_AGENTIC_STEPS) ∧
    (∀ (theme : String) (r : Nat),
      (planExperience true theme "static gallery" r).complexity = "high" ∧
      2 ≤ (planExperience true theme "static gallery" r).totalSteps ∧
      (planExperience true theme "static gallery" r).totalSteps ≤ MAX_AGENTIC_STEPS) ∧
    (∀ (theme : String) (r : Nat),
      (planExperience true theme "plain text" r).totalSteps = 1) ∧
    (∀ (enabled : Bool) (t1 t2 expType : String) (r : Nat),
      planExperience enabled t1 expType r = planExperience enabled t2 expType r) := by
  refine ⟨?_, ?_, ?_, fun _ _ _ _ _ => rfl⟩
  · intro theme r
    have hc : isComplexType "turn-based battle system" = true := by decide
    unfold planExperience
    rw [hc]
    rcases Nat.mod_two_eq_zero_or_one r with h | h <;>
      simp [h, MAX_AGENTIC_STEPS]
  · intro theme r
    have hc : isComplexType "static gallery" = true := by decide
    unfold planExperience
    rw [hc]
    rcases Nat.mod_two_eq_zero_or_one r with h | h <;>
      simp [h, MAX_AGENTIC_STEPS]
  · intro theme r
    have hc : isComplexType "plain text" = false := by decide
    unfold planExperience
    rw [hc]
    rfl

/-- C7 counterexample: a fragment with no heading, no title attribute, and
only a 5-character paragraph does not fall through to the fixed fallback —
the visible-text step returns the paragraph's own text `"abcde"`. -/
theorem c7_counterexample :
    ¬ (extractContextFromHTML
        (toNodeList [Node.elem "p" [] (toNodeList [Node.text "abcde"])]) =
      "Initial Experience") := by
  decide

/-- C7 (amended): the extracted label is always non-empty and at most
`MAX_CONTEXT_LENGTH` characters, following the priority chain; a fragment
whose only content is a 5-character paragraph yields that text `"abcde"`
via the visible-text step, and the fixed fallback `"Initial Experience"` is
produced only when the fragment has no visible text at all — e.g. an empty
fragment or a childless `div`. -/
theorem c7_context_label_amended :
    (∀ frag : NodeList, 0 < (extractContextFromHTML frag).length ∧
      (extractContextFromHTML frag).length ≤ MAX_CONTEXT_LENGTH) ∧
    extractContextFromHTML
        (toNodeList [Node.elem "p" [] (toNodeList [Node.text "abcde"])]) = "abcde" ∧
    extractContextFromHTML NodeList.nil = "Initial Experience" ∧
    extractContextFromHTML (toNodeList [Node.elem "div" [] NodeList.nil]) =
      "Initial Experience" :=
  ⟨extractContext_good, by decide, rfl, by decide⟩

/-- C8: from the empty session, every sequence of commits and navigations
preserves the cursor invariant (`-1` on the empty log, a valid index
otherwise); navigating to an index outside `[0, length)` changes nothing;
and committing always leaves the cursor at the last index. -/
theorem c8_cursor_invariant :
    (∀ (α : Type) (ops : List (HistOp α)), histInv (runHistOps (initialHist α) ops)) ∧
    (∀ (α : Type) (s : HistState α) (i : Int), (i < 0 ∨ (s.history.length : Int) ≤ i) →
      navigateToHistoryIndex s i = s) ∧
    (∀ (α : Type) (s : HistState α) (e : α),
      (addToHistory s e).current = ((addToHistory s e).history.length : Int) - 1) :=
  ⟨fun α ops => histInv_run ops (initialHist α) (histInv_initial α),
   fun _ s i h => navigateToHistoryIndex_invalid s i h,
   fun _ s e => addToHistory_cursor_last s e⟩

/-- Witness for C8: a concrete operation sequence, and a concrete invalid
navigation that is a no-op. -/
theorem c8_witness :
    histInv (runHistOps (initialHist String)
      [HistOp.commit "A", HistOp.commit "B", HistOp.nav 0, HistOp.commit "C"]) ∧
    navigateToHistoryIndex (HistState.mk ["A"] 0) 7 = HistState.mk ["A"] 0 :=
  ⟨c8_cursor_invariant.1 String [HistOp.commit "A", HistOp.commit "B", HistOp.nav 0,
      HistOp.commit "C"],
   c8_cursor_invariant.2.1 String (HistState.mk ["A"] 0) 7 (Or.inr (by decide))⟩

/-- C9: when any backend call of a generation request throws — the theme
call, the experience-type call, or any agentic step, and likewise the
generation call of an interaction — no history entry is committed: the log
and cursor are exactly as before, and the inline error panel (for
interactions, the reload panel) is displayed instead. -/
theorem c9_failure_no_commit :
    (∀ (st : AppState) (m : String) (expTypeR : Except String String) (r : Nat)
      (o : Nat → Except String NodeList),
      (generateExperienceModel st (Except.error m) expTypeR r o).hist = st.hist ∧
      (generateExperienceModel st (Except.error m) expTypeR r o).display =
        Display.errorPanel m) ∧
    (∀ (st : AppState) (theme m : String) (r : Nat) (o : Nat → Except String NodeList),
      (generateExperienceModel st (Except.ok theme) (Except.error m) r o).hist = st.hist ∧
      (generateExperienceModel st (Except.ok theme) (Except.error m) r o).display =
        Display.errorPanel m) ∧
    (∀ (st : AppState) (theme expType : String) (r : Nat)
      (o : Nat → Except String NodeList) (m : String),
      runGenStepsLast o (planExperience ENABLE_AGENTIC_LOOP theme expType r).totalSteps 1
        NodeList.nil = Except.error m →
      (generateExperienceModel st (Except.ok theme) (Except.ok expType) r o).hist = st.hist ∧
      (generateExperienceModel st (Except.ok theme) (Except.ok expType) r o).display =
        Display.errorPanel m) ∧
    (∀ (st : AppState) (tag : String) (attrs : AttrList) (textC pcid : String)
      (pmd : MRec) (o : Nat → Except String NodeList) (m : String),
      interactionGenResult pmd o = Except.error m →
      (handleInteractionModel st tag attrs textC pcid pmd o).hist = st.hist ∧
      (handleInteractionModel st tag attrs textC pcid pmd o).display =
        Display.reloadPanel m) := by
  refine ⟨?_, ?_, ?_, ?_⟩
  · intro st m expTypeR r o
    rw [generateExperience_fail_theme]
    exact ⟨rfl, rfl⟩
  · intro st theme m r o
    rw [generateExperience_fail_type]
    exact ⟨rfl, rfl⟩
  · intro st theme expType r o m h
    rw [generateExperience_fail_steps st theme expType r o m h]
    exact ⟨rfl, rfl⟩
  · intro st tag attrs textC pcid pmd o m h
    rw [handleInteraction_fail st tag attrs textC pcid pmd o m h]
    exact ⟨rfl, rfl⟩

/-- Witness for C9: a backend that always throws commits nothing and shows
the corresponding panels. -/
theorem c9_witness :
    ((generateExperienceModel (AppState.mk (initialHist Experience) Display.blank)
        (Except.ok "t") (Except.ok "x") 0 (fun _ => Except.error "boom")).hist =
      (AppState.mk (initialHist Experience) Display.blank).hist ∧
     (generateExperienceModel (AppState.mk (initialHist Experience) Display.blank)
        (Except.ok "t") (Except.ok "x") 0 (fun _ => Except.error "boom")).display =
      Display.errorPanel "boom") ∧
    ((handleInteractionModel (AppState.mk (initialHist Experience) Display.blank)
        "button" [] "go" "" [] (fun _ => Except.error "boom")).hist =
      (AppState.mk (initialHist Experience) Display.blank).hist ∧
     (handleInteractionModel (AppState.mk (initialHist Experience) Display.blank)
        "button" [] "go" "" [] (fun _ => Except.error "boom")).display =
      Display.reloadPanel "boom") :=
  ⟨c9_failure_no_commit.2.2.1 (AppState.mk (initialHist Experience) Display.blank)
      "t" "x" 0 (fun _ => Except.error "boom") "boom" rfl,
   c9_failure_no_commit.2.2.2 (AppState.mk (initialHist Experience) Display.blank)
      "button" [] "go" "" [] (fun _ => Except.error "boom") "boom" rfl⟩

/-- C10: sanitization is idempotent on parsed fragments — re-sanitizing a
sanitized tree changes nothing — so `displayExperience`'s re-sanitization
of a stored (already sanitized) entry mounts it unchanged. -/
theorem c10_sanitize_idempotent :
    (∀ ns : NodeList, sanitizeNodeList (sanitizeNodeList ns) = sanitizeNodeList ns) ∧
    (∀ (e : Experience) (raw : NodeList), e.html = sanitizeNodeList raw →
      displayExperience e = Display.contentView e.html) := by
  refine ⟨sanitizeNodeList_idem, ?_⟩
  intro e raw h
  unfold displayExperience
  rw [h, sanitizeNodeList_idem, ← h]

/-- Witness for C10 at a concrete stored entry. -/
theorem c10_witness :
    displayExperience
        (Experience.mk
          (sanitizeNodeList (toNodeList [Node.elem "p" [("onclick", "x")] NodeList.nil]))
          "c" []) =
      Display.contentView
        (sanitizeNodeList (toNodeList [Node.elem "p" [("onclick", "x")] NodeList.nil])) :=
  c10_sanitize_idempotent.2
    (Experience.mk
      (sanitizeNodeList (toNodeList [Node.elem "p" [("onclick", "x")] NodeList.nil])) "c" [])
    (toNodeList [Node.elem "p" [("onclick", "x")] NodeList.nil]) rfl

end Portail
